import Mathlib

set_option maxHeartbeats 1000000

namespace AIPaint

/-! Verification development for the AI_Paint pixel-engine core.

Sources embedded below:
- src/src/cpp/include/tile_engine.h and src/unnamed/part_002 (Pixel, Tile, TileGrid)
- src/src/cpp/include/undo_stack.h and src/src/cpp/core/undo_stack.cpp (UndoStack)
- src/src/cpp/include/canvas_core.h and src/src/cpp/core/canvas_core.cpp
  (Layer, CanvasCore, blendPixels, brush and eraser kernels)
- src/unnamed/part_003, first translation unit (Gaussian blur filter plugin)

Machine integers: C++ uint16_t values are Nat with an explicit mod 65536 at
each conversion site; size_t is Nat with an explicit mod 2 ^ 64 where the C++
code can underflow; C++ int is Int, with Int.tdiv and Int.tmod giving the C
truncating division and remainder.

Floating point: IEEE-754 binary32 arithmetic is modelled exactly over the
rationals. The function RN rounds a rational to the nearest binary32 value
(round to nearest, ties to even, unbounded exponent range, which agrees with
binary32 on all magnitudes reached by the verified code paths: no operation
below overflows or reaches the subnormal range). Every C++ float operation is
written as RN applied to the exact rational operation, matching the IEEE-754
correct rounding of addition, subtraction, multiplication, division, and of
int-to-float conversions of integers below 2 ^ 24, which are exact.
-/

/-- Rounding a rational to the nearest integer, ties to even: the IEEE-754
default rounding applied to a scaled mantissa. -/
def roundHalfEven (q : ℚ) : ℤ :=
  if q - ⌊q⌋ < 1/2 then ⌊q⌋
  else if (1:ℚ)/2 < q - ⌊q⌋ then ⌊q⌋ + 1
  else if 2 ∣ ⌊q⌋ then ⌊q⌋ else ⌊q⌋ + 1

/-- Rounding a positive rational to the nearest binary32 value: scale into the
binade given by Int.log, round the 24-bit mantissa half to even, scale back. -/
def RNpos (v : ℚ) : ℚ :=
  (roundHalfEven (v * 2 ^ ((23:ℤ) - Int.log 2 v)) : ℚ) * 2 ^ (Int.log 2 v - 23)

/-- Rounding a rational to the nearest binary32 value (IEEE-754 single
precision, round to nearest, ties to even). -/
def RN (v : ℚ) : ℚ :=
  if 0 < v then RNpos v else if v < 0 then -RNpos (-v) else 0

/-- C++ static_cast from float to uint16_t: truncation toward zero. The cast
is undefined behaviour outside (-1, 65536); every verified path below stays in
[0, 65535], where truncation toward zero is the floor followed by Int.toNat. -/
def castU16 (q : ℚ) : Nat := (⌊q⌋).toNat

/-- C++ static_cast from float to int: truncation toward zero. -/
def truncQ (q : ℚ) : Int := Int.tdiv q.num q.den

/-- IEEE-754 binary64 square root of a natural number, correctly rounded to 53
bits; std::sqrt promotes the integer squared distance of the brush kernels to
double, whose conversion is exact for the magnitudes involved. A rounding tie
is impossible: a tie would need 4 * M = (2 * s + 1) ^ 2 with an even left side
and an odd right side. -/
def sqrtD (n : Nat) : ℚ :=
  if n = 0 then 0
  else
    (if (2 * Nat.sqrt (n * 4 ^ (52 - Nat.log 2 (Nat.sqrt n))) + 1) ^ 2
        < 4 * (n * 4 ^ (52 - Nat.log 2 (Nat.sqrt n)))
     then (Nat.sqrt (n * 4 ^ (52 - Nat.log 2 (Nat.sqrt n))) : ℚ) + 1
     else (Nat.sqrt (n * 4 ^ (52 - Nat.log 2 (Nat.sqrt n))) : ℚ))
    * 2 ^ ((Nat.log 2 (Nat.sqrt n) : ℤ) - 52)

/-- Pixel from tile_engine.h: four uint16_t channels r, g, b, a; the default
constructor yields opaque black (0, 0, 0, 65535). Channels are Nat; each write
site reproduces the C++ conversion to uint16_t explicitly. -/
structure Pixel where
  r : Nat
  g : Nat
  b : Nat
  a : Nat
deriving DecidableEq

/-- The value of the C++ default constructor Pixel(). -/
def Pixel.mk0 : Pixel := ⟨0, 0, 0, 65535⟩

/-- Tile from part_002: a 256 x 256 pixel block with origin coordinates and a
dirty flag. The C++ std::vector of 65536 pixels indexed by y * 256 + x is a
total function from Nat; indices at or above 65536 never arise because every
access is bounds guarded. -/
structure Tile where
  x : Int
  y : Int
  pixels : Nat → Pixel
  dirty : Bool

/-- Tile default constructor Tile(): origin (0, 0), clean, default pixels. -/
def Tile.new : Tile := ⟨0, 0, fun _ => Pixel.mk0, false⟩

/-- Tile constructor Tile(x, y). -/
def Tile.newAt (x y : Int) : Tile := ⟨x, y, fun _ => Pixel.mk0, false⟩

/-- The const overload of Tile::at: out-of-range local indices return a
default pixel (a function-local static dummy that the const overload never
mutates). -/
def Tile.atRead (t : Tile) (x y : Int) : Pixel :=
  if x < 0 ∨ 256 ≤ x ∨ y < 0 ∨ 256 ≤ y then Pixel.mk0
  else t.pixels (y * 256 + x).toNat

/-- Writing p through the mutable overload of Tile::at: an in-range write
stores the pixel (the mutable overload also sets the dirty flag); an
out-of-range write lands in the function-local static dummy pixel and leaves
the tile itself unchanged. -/
def Tile.setAt (t : Tile) (x y : Int) (p : Pixel) : Tile :=
  if x < 0 ∨ 256 ≤ x ∨ y < 0 ∨ 256 ≤ y then t
  else
    { t with
      pixels := fun i => if i = (y * 256 + x).toNat then p else t.pixels i
      dirty := true }

/-- One channel of Tile::operator+= from part_002: in the C++ expression the
int sum a + b is converted to uint16_t, that is reduced mod 65536, before the
min against 65535 is taken (std::min is instantiated at uint16_t, so the
conversion happens at the call). -/
def addChan (a b : Nat) : Nat := min 65535 ((a + b) % 65536)

/-- One channel of Tile::operator-= from part_002: the int difference a - b is
converted to uint16_t (wrap into [0, 65536), which Int.emod provides) before
the max against 0 is taken. -/
def subChan (a b : Nat) : Nat := max 0 (((a : Int) - (b : Int)).emod 65536).toNat

/-- Tile::operator+= applied channel-wise to every stored pixel. -/
def Tile.addAssign (t u : Tile) : Tile :=
  { t with
    pixels := fun i =>
      ⟨addChan (t.pixels i).r (u.pixels i).r, addChan (t.pixels i).g (u.pixels i).g,
       addChan (t.pixels i).b (u.pixels i).b, addChan (t.pixels i).a (u.pixels i).a⟩
    dirty := true }

/-- Tile::operator-= applied channel-wise to every stored pixel. -/
def Tile.subAssign (t u : Tile) : Tile :=
  { t with
    pixels := fun i =>
      ⟨subChan (t.pixels i).r (u.pixels i).r, subChan (t.pixels i).g (u.pixels i).g,
       subChan (t.pixels i).b (u.pixels i).b, subChan (t.pixels i).a (u.pixels i).a⟩
    dirty := true }

/-- TileGrid from part_002: logical image of width x height pixels stored as
row-major tiles. Entries of the tiles function at indices at or beyond
tileCountX * tileCountY do not exist in the C++ vector; the guarded accessors
below never reach them. -/
structure TileGrid where
  width : Int
  height : Int
  tileCountX : Int
  tileCountY : Int
  tiles : Nat → Tile

/-- TileGrid constructor: ceiling-division tile counts and row-major tiles
with origins at the multiples of 256. -/
def TileGrid.make (width height : Int) : TileGrid :=
  ⟨width, height, Int.tdiv (width + 255) 256, Int.tdiv (height + 255) 256,
    fun idx =>
      Tile.newAt (((idx % (Int.tdiv (width + 255) 256).toNat : Nat) : Int) * 256)
                 (((idx / (Int.tdiv (width + 255) 256).toNat : Nat) : Int) * 256)⟩

/-- The const overload of TileGrid::getTile: out-of-range tile coordinates
return the function-local static dummy tile (default constructed). -/
def TileGrid.getTileRead (g : TileGrid) (tileX tileY : Int) : Tile :=
  if tileX < 0 ∨ g.tileCountX ≤ tileX ∨ tileY < 0 ∨ g.tileCountY ≤ tileY then Tile.new
  else g.tiles (tileY * g.tileCountX + tileX).toNat

/-- The const overload of TileGrid::getPixel: translate through the tile
lookup with the C truncating division and remainder. -/
def TileGrid.getPixelRead (g : TileGrid) (x y : Int) : Pixel :=
  (g.getTileRead (Int.tdiv x 256) (Int.tdiv y 256)).atRead (Int.tmod x 256) (Int.tmod y 256)

/-- Writing p through the mutable TileGrid::getPixel chain getTile(...).at(...):
if the tile coordinates are out of range the write lands in the static dummy
tile and the grid is unchanged; otherwise the addressed tile receives the
write through Tile::at (which itself absorbs out-of-range local indices). -/
def TileGrid.setPixel (g : TileGrid) (x y : Int) (p : Pixel) : TileGrid :=
  if Int.tdiv x 256 < 0 ∨ g.tileCountX ≤ Int.tdiv x 256 ∨
     Int.tdiv y 256 < 0 ∨ g.tileCountY ≤ Int.tdiv y 256 then g
  else
    { g with tiles := (fun i =>
        if i = (Int.tdiv y 256 * g.tileCountX + Int.tdiv x 256).toNat
        then (g.tiles (Int.tdiv y 256 * g.tileCountX + Int.tdiv x 256).toNat).setAt
               (Int.tmod x 256) (Int.tmod y 256) p
        else g.tiles i) }

/-- cv::Mat of type CV_16UC4: rows x cols of Vec4w entries; data y x is the
entry at row y and column x, channels indexed 0 to 3 in B, G, R, A order. The
C++ constructors leave entries uninitialised; toMat below defines them
everywhere by the same formula it uses in range, and fromMat only reads
entries in range. -/
structure Mat where
  rows : Int
  cols : Int
  data : Int → Int → Fin 4 → Nat

/-- TileGrid::toMat from part_002: BGRA channel order. -/
def TileGrid.toMat (g : TileGrid) : Mat :=
  ⟨g.height, g.width, fun y x =>
    ![(g.getPixelRead x y).b, (g.getPixelRead x y).g,
      (g.getPixelRead x y).r, (g.getPixelRead x y).a]⟩

/-- TileGrid::fromMat from part_002: dimension guard, then a row-major double
loop writing Pixel(entry 2, entry 1, entry 0, entry 3) through the mutable
getPixel chain. -/
def TileGrid.fromMat (g : TileGrid) (m : Mat) : TileGrid :=
  if m.rows ≠ g.height ∨ m.cols ≠ g.width then g
  else
    (List.range g.height.toNat).foldl (fun gy (y : Nat) =>
      (List.range g.width.toNat).foldl (fun gx (x : Nat) =>
        gx.setPixel (x : Int) (y : Int)
          ⟨m.data (y : Int) (x : Int) 2, m.data (y : Int) (x : Int) 1,
           m.data (y : Int) (x : Int) 0, m.data (y : Int) (x : Int) 3⟩) gy) g

/-- Tile::toMat from part_002: the 256 x 256 BGRA matrix of one tile. -/
def Tile.toMat (t : Tile) : Mat :=
  ⟨256, 256, fun y x =>
    ![(t.atRead x y).b, (t.atRead x y).g, (t.atRead x y).r, (t.atRead x y).a]⟩

/-- Tile::fromMat from part_002: dimension guard, then every local pixel slot
y * 256 + x receives Pixel(entry 2, entry 1, entry 0, entry 3) and the dirty
flag is set. -/
def Tile.fromMat (t : Tile) (m : Mat) : Tile :=
  if m.rows ≠ 256 ∨ m.cols ≠ 256 then t
  else
    { t with
      pixels := fun i =>
        if i < 65536 then
          ⟨m.data ((i / 256 : Nat) : Int) ((i % 256 : Nat) : Int) 2,
           m.data ((i / 256 : Nat) : Int) ((i % 256 : Nat) : Int) 1,
           m.data ((i / 256 : Nat) : Int) ((i % 256 : Nat) : Int) 0,
           m.data ((i / 256 : Nat) : Int) ((i % 256 : Nat) : Int) 3⟩
        else t.pixels i
      dirty := true }

/-- cv::BORDER_REFLECT index folding (f e d c b a | a b c d e f | f e d c b a):
only offsets of magnitude 1 occur in the 3 x 3 pass below. -/
def reflectIdx (i n : Int) : Int :=
  if i < 0 then -i - 1 else if n ≤ i then 2 * n - 1 - i else i

/-- One normalized 3 x 3 cv::boxFilter pass with BORDER_REFLECT, per channel:
the output entry is the integer nearest to the mean of the 3 x 3 window. A
rounding tie is impossible since 2 * s + 9 is odd is never divisible such that
the mean sits exactly on a half integer: a tie needs 2 * s congruent to 9
modulo 18, and 2 * s is even. OpenCV computes the normalized sum in double and
rounds with cvRound; for window sums bounded by 9 * 65535 that value always
agrees with the exact nearest integer because the mean is never closer than
1 / 18 to a half integer while the double evaluation error is below 10 ^ -9. -/
def boxBlur3 (m : Mat) : Mat :=
  { m with data := (fun y x j =>
      if 0 ≤ y ∧ y < m.rows ∧ 0 ≤ x ∧ x < m.cols then
        (2 * (([-1, 0, 1].map (fun dy =>
                ([-1, 0, 1].map (fun dx =>
                  m.data (reflectIdx (y + dy) m.rows) (reflectIdx (x + dx) m.cols) j)).sum)).sum)
          + 9) / 18
      else m.data y x j) }

/-- The function fast_gaussian_blur of part_003 at its default parameter
sigma = 1.0 (the value used when the float parameter map has no sigma entry;
the clamp into [0.1, 50] leaves 1.0 unchanged). The box sizes are computed
from sigma in float arithmetic: wIdeal = sqrt(12 * 1 / 3 + 1) = sqrt 5, whose
floor 2 is even and is decremented to wl = 1, wu = 3; mIdeal =
(12 - 3 - 12 - 9) / (-8) = 1.5 rounds (std::round, half away from zero) to
m = 2, so the pass sizes are [1, 1, 3] and only the single size-3 pass runs
(passes of size 1 are skipped by the size > 1 guard). The tile is converted
to a matrix, filtered, and converted back. -/
def fastGaussianBlurS1 (t : Tile) : Tile := t.fromMat (boxBlur3 t.toMat)

/-- The tile loop shared verbatim by the process functions of all four filter
plugins (Gaussian blur and inpaint in part_003, unsharp mask in part_004,
smudge in smudge.cpp): tiles are processed in row-major order (tileIndex =
ty * tcx + tx runs through 0, 1, 2, ... sequentially); each reached tile is
replaced by the plugin transform applied to it, then the progress callback is
invoked (no effect on the modelled state) and the cancelled callback is
polled; a true answer returns immediately. The parameter f i t is the
transform the plugin in question applies to tile i when the loop reaches it
(for the smudge plugin this includes the update of its global state, which
only influences tiles the loop reaches later); the argument k counts the
cancellation polls, so cancelled k is the result of the k-th poll. -/
def processPluginGo (f : Nat → Tile → Tile) (cancelled : Nat → Bool) :
    Nat → (Nat → Tile) → Nat → Nat → (Nat → Tile)
  | 0, d, _, _ => d
  | count + 1, d, i, k =>
      let d1 := fun j => if j = i then f i (d i) else d j
      if cancelled k then d1 else processPluginGo f cancelled count d1 (i + 1) (k + 1)

/-- The process entry point shared by the four filter plugins, abstracted over
the per-tile transform: the null-data guard is not modelled (a buffer is
always present here), tile counts are the ceiling divisions of the canvas
size, and the flattened row-major tile loop runs with per-tile cancellation
polling. -/
def processPlugin (f : Nat → Tile → Tile) (data : Nat → Tile) (w h : Int)
    (cancelled : Nat → Bool) : Nat → Tile :=
  processPluginGo f cancelled
    ((Int.tdiv (w + 255) 256) * (Int.tdiv (h + 255) 256)).toNat data 0 0

/-- The process entry point of the Gaussian blur plugin (part_003) with the
default sigma (no sigma key in the parameter map): the shared loop with the
blur as the per-tile transform. -/
def processGaussianBlur (data : Nat → Tile) (w h : Int) (cancelled : Nat → Bool) : Nat → Tile :=
  processPlugin (fun _ => fastGaussianBlurS1) data w h cancelled

/-- BlendMode from canvas_core.h, all twelve members in declaration order. -/
inductive BlendMode where
  | Normal
  | Multiply
  | Screen
  | Overlay
  | SoftLight
  | HardLight
  | ColorDodge
  | ColorBurn
  | Darken
  | Lighten
  | Difference
  | Exclusion
deriving DecidableEq

/-- The per-channel blend function of CanvasCore::blendPixels: the switch on
the mode; the eight modes after Overlay fall through to the default case,
which copies the source channel like Normal. -/
def blendF (mode : BlendMode) (d s : ℚ) : ℚ :=
  match mode with
  | .Normal => s
  | .Multiply => RN (d * s)
  | .Screen => RN (1 - RN (RN (1 - d) * RN (1 - s)))
  | .Overlay =>
      if d < 1/2 then RN (RN (2 * d) * s)
      else RN (1 - RN (RN (2 * RN (1 - d)) * RN (1 - s)))
  | _ => s

/-- The final per-channel write of CanvasCore::blendPixels:
(result * srcAlpha + dest * destAlpha * (1 - srcAlpha)) / finalAlpha * 65535
cast to uint16_t, with every float operation rounded. -/
def blendChanOut (resultC destC srcAlpha destAlpha finalAlpha : ℚ) : Nat :=
  castU16 (RN (RN (RN (RN (resultC * srcAlpha)
      + RN (RN (destC * destAlpha) * RN (1 - srcAlpha))) / finalAlpha) * 65535))

/-- CanvasCore::blendPixels from canvas_core.cpp: straight-alpha over
compositing with the per-mode colour blend, in float arithmetic. When
srcAlpha is not positive, or finalAlpha is not positive, the destination is
left unchanged. -/
def blendPixels (dest src : Pixel) (mode : BlendMode) (opacity : ℚ) : Pixel :=
  let srcAlpha := RN (RN ((src.a : ℚ) / 65535) * opacity)
  if srcAlpha ≤ 0 then dest
  else
    let destAlpha := RN ((dest.a : ℚ) / 65535)
    let srcR := RN ((src.r : ℚ) / 65535)
    let srcG := RN ((src.g : ℚ) / 65535)
    let srcB := RN ((src.b : ℚ) / 65535)
    let destR := RN ((dest.r : ℚ) / 65535)
    let destG := RN ((dest.g : ℚ) / 65535)
    let destB := RN ((dest.b : ℚ) / 65535)
    let finalAlpha := RN (srcAlpha + RN (destAlpha * RN (1 - srcAlpha)))
    if 0 < finalAlpha then
      ⟨blendChanOut (blendF mode destR srcR) destR srcAlpha destAlpha finalAlpha,
       blendChanOut (blendF mode destG srcG) destG srcAlpha destAlpha finalAlpha,
       blendChanOut (blendF mode destB srcB) destB srcAlpha destAlpha finalAlpha,
       castU16 (RN (finalAlpha * 65535))⟩
    else dest

/-- Layer from canvas_core.h: name, pixel grid, opacity, blend mode,
visibility, optional clip mask (a shared pointer to another layer, modelled
structurally), and the adjustment stack of (type, parameter map) pairs with
float values as rationals. -/
inductive Layer where
  | mk (name : String) (pixels : TileGrid) (opacity : ℚ) (blendMode : BlendMode)
       (visible : Bool) (clipMask : Option Layer)
       (adjustments : List (String × List (String × ℚ)))

/-- Accessor for the layer name. -/
def Layer.name : Layer → String
  | .mk n _ _ _ _ _ _ => n

/-- Accessor for the layer pixel grid. -/
def Layer.pixels : Layer → TileGrid
  | .mk _ p _ _ _ _ _ => p

/-- Accessor for the layer opacity. -/
def Layer.opacity : Layer → ℚ
  | .mk _ _ o _ _ _ _ => o

/-- Accessor for the layer blend mode. -/
def Layer.blendMode : Layer → BlendMode
  | .mk _ _ _ b _ _ _ => b

/-- Accessor for the layer visibility flag. -/
def Layer.visible : Layer → Bool
  | .mk _ _ _ _ v _ _ => v

/-- Accessor for the layer clip mask. -/
def Layer.clipMask : Layer → Option Layer
  | .mk _ _ _ _ _ c _ => c

/-- Accessor for the layer adjustment stack. -/
def Layer.adjustments : Layer → List (String × List (String × ℚ))
  | .mk _ _ _ _ _ _ a => a

/-- Replace the pixel grid of a layer (the assignment
layer.getPixels() = grid used by undo and redo; TileGrid assignment deep
copies every field of the source grid, which in a pure value model is the
identity on the value). -/
def Layer.setPixels : Layer → TileGrid → Layer
  | .mk n _ o b v c a, g => .mk n g o b v c a

/-- The Layer constructor Layer(name, width, height) from canvas_core.cpp:
fresh pixel grid, opacity 1, blend mode Normal, visible, no clip mask, empty
adjustment stack. -/
def Layer.new (name : String) (width height : Int) : Layer :=
  .mk name (TileGrid.make width height) 1 .Normal true none []

/-- UndoState from undo_stack.h: per-layer grid snapshots, a description, and
a timestamp. The C++ timestamp is read from the system clock at push time; no
claim concerns its value, and the model records 0. -/
structure UndoState where
  layerSnapshots : List TileGrid
  description : String
  timestamp : Int

/-- UndoStack from undo_stack.h: bounded history with a current index. The
C++ fields currentIndex_ and maxStates_ are size_t; they are Nat here, with
the unsigned wraparound written out where the C++ arithmetic can underflow. -/
structure UndoStack where
  states : List UndoState
  currentIndex : Nat
  maxStates : Nat

/-- UndoStack::canUndo: currentIndex_ > 0. -/
def UndoStack.canUndo (s : UndoStack) : Bool := decide (0 < s.currentIndex)

/-- UndoStack::canRedo: currentIndex_ < states_.size() - 1 in size_t
arithmetic, so an empty history makes the right side 2 ^ 64 - 1 by unsigned
underflow. -/
def UndoStack.canRedo (s : UndoStack) : Bool :=
  decide (s.currentIndex < (s.states.length + 2 ^ 64 - 1) % 2 ^ 64)

/-- UndoStack::pushState from undo_stack.cpp: truncate the states from
currentIndex_ on, append a deep copy of the snapshots (the identity on pure
values), increment currentIndex_, then trimStates: while over capacity, drop
the oldest states and subtract the eviction count from currentIndex_ in
size_t arithmetic (std::max against 0 is the identity on an unsigned value). -/
def UndoStack.pushState (s : UndoStack) (snapshots : List TileGrid) (description : String) :
    UndoStack :=
  let states1 := s.states.take s.currentIndex ++ [⟨snapshots, description, 0⟩]
  if states1.length ≤ s.maxStates then ⟨states1, s.currentIndex + 1, s.maxStates⟩
  else
    ⟨states1.drop (states1.length - s.maxStates),
     (s.currentIndex + 1 + 2 ^ 64 - (states1.length - s.maxStates)) % 2 ^ 64,
     s.maxStates⟩

/-- UndoStack::popState: when undo is possible, decrement currentIndex_ and
return deep copies of the snapshots at the new index together with the new
stack; otherwise return an empty list and the unchanged stack. -/
def UndoStack.popState (s : UndoStack) : List TileGrid × UndoStack :=
  if s.canUndo then
    ((s.states.getD (s.currentIndex - 1) ⟨[], "", 0⟩).layerSnapshots,
     ⟨s.states, s.currentIndex - 1, s.maxStates⟩)
  else ([], s)

/-- UndoStack::redoState: when redo is possible, return deep copies of the
snapshots at currentIndex_ and increment it. The C++ element access is out of
bounds (undefined behaviour) exactly when the canRedo underflow lets an empty
history through; getD then yields an empty state. -/
def UndoStack.redoState (s : UndoStack) : List TileGrid × UndoStack :=
  if s.canRedo then
    ((s.states.getD s.currentIndex ⟨[], "", 0⟩).layerSnapshots,
     ⟨s.states, s.currentIndex + 1, s.maxStates⟩)
  else ([], s)

/-- CanvasCore from canvas_core.h: dimensions, the ordered layer list (bottom
first), the advisory selection, and the owned undo stack. -/
structure CanvasCore where
  width : Int
  height : Int
  layers : List Layer
  selection : List (Int × Int)
  undoStack : UndoStack

/-- CanvasCore::addLayer: append a fresh layer named name at the top. -/
def CanvasCore.addLayer (c : CanvasCore) (name : String) : CanvasCore :=
  { c with layers := c.layers ++ [Layer.new name c.width c.height] }

/-- The CanvasCore constructor: store the dimensions, default-construct the
undo stack (maxStates 50, empty, index 0) and add the Background layer. -/
def CanvasCore.make (width height : Int) : CanvasCore :=
  CanvasCore.addLayer ⟨width, height, [], [], ⟨[], 0, 50⟩⟩ "Background"

/-- CanvasCore::resize from canvas_core.cpp: store the new dimensions and
replace every layer by a freshly constructed Layer carrying only the old
name. -/
def CanvasCore.resize (c : CanvasCore) (width height : Int) : CanvasCore :=
  { c with
    width := width
    height := height
    layers := c.layers.map (fun l => Layer.new l.name width height) }

/-- CanvasCore::beginStroke: push deep copies of every layer grid onto the
undo stack under the description Brush Stroke. -/
def CanvasCore.beginStroke (c : CanvasCore) : CanvasCore :=
  { c with undoStack := c.undoStack.pushState (c.layers.map Layer.pixels) "Brush Stroke" }

/-- CanvasCore::endStroke: an empty body (the stroke was recorded at begin). -/
def CanvasCore.endStroke (c : CanvasCore) : CanvasCore := c

/-- The restoration loop shared by CanvasCore::undo and CanvasCore::redo:
for i below both lengths, assign snapshot i to the pixel grid of layer i;
layers beyond the snapshot list are untouched. -/
def restoreLayers : List Layer → List TileGrid → List Layer
  | [], _ => []
  | ls, [] => ls
  | l :: ls, s :: ss => l.setPixels s :: restoreLayers ls ss

/-- CanvasCore::undo: when possible, pop the previous snapshots and copy them
into the layer grids. -/
def CanvasCore.undo (c : CanvasCore) : CanvasCore :=
  if c.undoStack.canUndo then
    { c with
      layers := restoreLayers c.layers (c.undoStack.popState).1
      undoStack := (c.undoStack.popState).2 }
  else c

/-- CanvasCore::redo: when possible, take the snapshots at the current index
and copy them into the layer grids. -/
def CanvasCore.redo (c : CanvasCore) : CanvasCore :=
  if c.undoStack.canRedo then
    { c with
      layers := restoreLayers c.layers (c.undoStack.redoState).1
      undoStack := (c.undoStack.redoState).2 }
  else c

/-- The list of kernel offsets -radius to radius of the brush loops (empty
when radius is negative, exactly like the C++ loop bounds). -/
def offsetList (r : Int) : List Int :=
  (List.range (2 * r + 1).toNat).map (fun i => (i : Int) - r)

/-- One channel of the brush compositing write:
dest * (1 - alpha) + color * alpha, each float operation rounded, cast to
uint16_t. -/
def mixChan (d c : Nat) (alpha : ℚ) : Nat :=
  castU16 (RN (RN ((d : ℚ) * RN (1 - alpha)) + RN ((c : ℚ) * alpha)))

/-- The alpha write of the eraser: dest.a * (1 - alpha), rounded and cast. -/
def eraseChanA (a : Nat) (alpha : ℚ) : Nat :=
  castU16 (RN ((a : ℚ) * RN (1 - alpha)))

/-- The per-point disk stamp of CanvasCore::drawBrushStroke: for every offset
pair within the square, bounds-check against the canvas, compare the float
euclidean distance against the radius, and composite with the distance
falloff weight times the opacity. -/
def brushAtPoint (g : TileGrid) (W H x y radius : Int) (opacity : ℚ) (color : Pixel) :
    TileGrid :=
  (offsetList radius).foldl (fun g1 dy =>
    (offsetList radius).foldl (fun g2 dx =>
      if 0 ≤ x + dx ∧ x + dx < W ∧ 0 ≤ y + dy ∧ y + dy < H then
        if RN (sqrtD (dx * dx + dy * dy).toNat) ≤ (radius : ℚ) then
          (fun dest =>
            g2.setPixel (x + dx) (y + dy)
              ⟨mixChan dest.r color.r
                  (RN (RN (1 - RN (RN (sqrtD (dx * dx + dy * dy).toNat) / (radius : ℚ))) * opacity)),
               mixChan dest.g color.g
                  (RN (RN (1 - RN (RN (sqrtD (dx * dx + dy * dy).toNat) / (radius : ℚ))) * opacity)),
               mixChan dest.b color.b
                  (RN (RN (1 - RN (RN (sqrtD (dx * dx + dy * dy).toNat) / (radius : ℚ))) * opacity)),
               mixChan dest.a color.a
                  (RN (RN (1 - RN (RN (sqrtD (dx * dx + dy * dy).toNat) / (radius : ℚ))) * opacity))⟩)
          (g2.getPixelRead (x + dx) (y + dy))
        else g2
      else g2) g1) g

/-- The per-point disk stamp of CanvasCore::eraseBrushStroke: same loop
structure, but only the alpha channel is written. -/
def eraseAtPoint (g : TileGrid) (W H x y radius : Int) (opacity : ℚ) : TileGrid :=
  (offsetList radius).foldl (fun g1 dy =>
    (offsetList radius).foldl (fun g2 dx =>
      if 0 ≤ x + dx ∧ x + dx < W ∧ 0 ≤ y + dy ∧ y + dy < H then
        if RN (sqrtD (dx * dx + dy * dy).toNat) ≤ (radius : ℚ) then
          (fun dest =>
            g2.setPixel (x + dx) (y + dy)
              ⟨dest.r, dest.g, dest.b,
               eraseChanA dest.a
                  (RN (RN (1 - RN (RN (sqrtD (dx * dx + dy * dy).toNat) / (radius : ℚ))) * opacity))⟩)
          (g2.getPixelRead (x + dx) (y + dy))
        else g2
      else g2) g1) g

/-- CanvasCore::drawBrushStroke from canvas_core.cpp: silent return on an
out-of-range layer index, then the disk stamp at every point in order. The
integer radius is static_cast of size / 2.0f (hoisted here: the C++ computes
the same value inside the point loop). -/
def CanvasCore.drawBrushStroke (c : CanvasCore) (layerIndex : Int)
    (points : List (Int × Int)) (size opacity : ℚ) (color : Pixel) : CanvasCore :=
  if layerIndex < 0 ∨ (c.layers.length : Int) ≤ layerIndex then c
  else
    let l := c.layers.getD layerIndex.toNat (Layer.new "" 0 0)
    let g := points.foldl (fun gp pt =>
        brushAtPoint gp c.width c.height pt.1 pt.2 (truncQ (RN (size / 2))) opacity color)
      l.pixels
    { c with layers := c.layers.set layerIndex.toNat (l.setPixels g) }

/-- CanvasCore::eraseBrushStroke from canvas_core.cpp: same structure as the
brush, with the eraser stamp. -/
def CanvasCore.eraseBrushStroke (c : CanvasCore) (layerIndex : Int)
    (points : List (Int × Int)) (size opacity : ℚ) : CanvasCore :=
  if layerIndex < 0 ∨ (c.layers.length : Int) ≤ layerIndex then c
  else
    let l := c.layers.getD layerIndex.toNat (Layer.new "" 0 0)
    let g := points.foldl (fun gp pt =>
        eraseAtPoint gp c.width c.height pt.1 pt.2 (truncQ (RN (size / 2))) opacity)
      l.pixels
    { c with layers := c.layers.set layerIndex.toNat (l.setPixels g) }

/-- A brush or eraser kernel invocation with its arguments: the mutations a
stroke performs between beginStroke and undo. -/
inductive KernelOp where
  | brush (layerIndex : Int) (points : List (Int × Int)) (size opacity : ℚ) (color : Pixel)
  | erase (layerIndex : Int) (points : List (Int × Int)) (size opacity : ℚ)

/-- Apply one kernel invocation to the canvas. -/
def applyKernelOp (c : CanvasCore) : KernelOp → CanvasCore
  | .brush layerIndex points size opacity color =>
      c.drawBrushStroke layerIndex points size opacity color
  | .erase layerIndex points size opacity =>
      c.eraseBrushStroke layerIndex points size opacity

/-- Apply a sequence of kernel invocations in order. -/
def applyKernelOps (c : CanvasCore) (ops : List KernelOp) : CanvasCore :=
  ops.foldl applyKernelOp c


/-! Helper lemmas about the layer accessors. -/

theorem Layer.name_setPixels (l : Layer) (g : TileGrid) : (l.setPixels g).name = l.name := by
  cases l; rfl

theorem Layer.pixels_setPixels (l : Layer) (g : TileGrid) : (l.setPixels g).pixels = g := by
  cases l; rfl

theorem Layer.opacity_setPixels (l : Layer) (g : TileGrid) :
    (l.setPixels g).opacity = l.opacity := by
  cases l; rfl

theorem Layer.blendMode_setPixels (l : Layer) (g : TileGrid) :
    (l.setPixels g).blendMode = l.blendMode := by
  cases l; rfl

theorem Layer.visible_setPixels (l : Layer) (g : TileGrid) :
    (l.setPixels g).visible = l.visible := by
  cases l; rfl

theorem Layer.clipMask_setPixels (l : Layer) (g : TileGrid) :
    (l.setPixels g).clipMask = l.clipMask := by
  cases l; rfl

theorem Layer.adjustments_setPixels (l : Layer) (g : TileGrid) :
    (l.setPixels g).adjustments = l.adjustments := by
  cases l; rfl

/-! Helper lemmas about the restoration loop. -/

theorem restoreLayers_length (ls : List Layer) (ss : List TileGrid) :
    (restoreLayers ls ss).length = ls.length := by
  induction ls generalizing ss with
  | nil => cases ss <;> rfl
  | cons l ls ih => cases ss with
    | nil => rfl
    | cons s ss => simp [restoreLayers, ih]

theorem restoreLayers_get?_of_le (ls : List Layer) (ss : List TileGrid) (i : Nat)
    (h : ss.length ≤ i) : (restoreLayers ls ss).get? i = ls.get? i := by
  induction ls generalizing ss i with
  | nil => cases ss <;> rfl
  | cons l ls ih =>
    cases ss with
    | nil => rfl
    | cons s ss =>
      cases i with
      | zero => simp at h
      | succ i => simpa [restoreLayers] using ih (s :: ss).tail (i) (by simpa using h)

theorem restoreLayers_map_of_setPixels_inv (f : Layer → α)
    (hf : ∀ (l : Layer) (g : TileGrid), f (l.setPixels g) = f l)
    (ls : List Layer) (ss : List TileGrid) (i : Nat) :
    ((restoreLayers ls ss).get? i).map f = (ls.get? i).map f := by
  induction ls generalizing ss i with
  | nil => cases ss <;> rfl
  | cons l ls ih =>
    cases ss with
    | nil => rfl
    | cons s ss =>
      cases i with
      | zero => simp [restoreLayers, hf]
      | succ i => simpa [restoreLayers] using ih ss i

theorem restoreLayers_get?_pixels (ls : List Layer) (ss : List TileGrid) (i : Nat)
    (hi : i < ls.length) (hs : i < ss.length) :
    ((restoreLayers ls ss).get? i).map Layer.pixels = ss.get? i := by
  induction ls generalizing ss i with
  | nil => simp at hi
  | cons l ls ih =>
    cases ss with
    | nil => simp at hs
    | cons s ss =>
      cases i with
      | zero => simp [restoreLayers, Layer.pixels_setPixels]
      | succ i =>
        simp only [restoreLayers, List.get?]
        exact ih ss i (by simpa using hi) (by simpa using hs)

theorem restoreLayers_map_pixels (ls : List Layer) (ss : List TileGrid)
    (h : ls.length = ss.length) :
    (restoreLayers ls ss).map Layer.pixels = ss := by
  induction ls generalizing ss with
  | nil => cases ss with
    | nil => rfl
    | cons s ss => simp at h
  | cons l ls ih =>
    cases ss with
    | nil => simp at h
    | cons s ss =>
      simp only [restoreLayers, List.map_cons, Layer.pixels_setPixels]
      rw [ih ss (by simpa using h)]

/-- Claim C2. The claim asserts canUndo is equivalent to currentIndex > 0
(which the code satisfies) and canRedo is equivalent to
currentIndex < states.length, false on an empty stack and true when
currentIndex equals states.length - 1 with a state present. The code computes
currentIndex_ < states_.size() - 1 in size_t arithmetic: on the empty stack
the subtraction underflows to 2 ^ 64 - 1 and canRedo answers true (the claim
requires false), and on a one-state stack with currentIndex 0 it answers
false (the claim requires true). This theorem evaluates the embedded code at
both failing inputs. -/
theorem claim_C2 :
    UndoStack.canUndo ⟨[], 0, 50⟩ = false ∧
    UndoStack.canRedo ⟨[], 0, 50⟩ = true ∧
    ¬ ((0 : Nat) < ([] : List UndoState).length) ∧
    UndoStack.canRedo ⟨[⟨[], "s", 0⟩], 0, 50⟩ = false ∧
    ((0 : Nat) < ([⟨[], "s", 0⟩] : List UndoState).length) := by
  refine ⟨by decide, ?_, by decide, ?_, by decide⟩
  · show decide ((0 : Nat) < (0 + 2 ^ 64 - 1) % 2 ^ 64) = true
    decide
  · show decide ((0 : Nat) < (1 + 2 ^ 64 - 1) % 2 ^ 64) = false
    decide

/-- Claim C4. The claim asserts the in-place tile arithmetic saturates each
channel into [0, 65535] and never wraps modulo 2 ^ 16, citing
40000 + 40000 = 65535 and 10000 - 20000 = 0. In the code the int result is
converted to uint16_t before the clamp (std::min and std::max are
instantiated at uint16_t), so the clamp never fires: 40000 + 40000 wraps to
14464 and 10000 - 20000 wraps to 55536. This theorem evaluates the embedded
operators at those failing inputs. -/
theorem claim_C4 :
    ((Tile.addAssign ⟨0, 0, fun _ => ⟨40000, 0, 0, 65535⟩, false⟩
        ⟨0, 0, fun _ => ⟨40000, 0, 0, 65535⟩, false⟩).pixels 0).r = 14464 ∧
    ((Tile.subAssign ⟨0, 0, fun _ => ⟨10000, 0, 0, 65535⟩, false⟩
        ⟨0, 0, fun _ => ⟨20000, 0, 0, 65535⟩, false⟩).pixels 0).r = 55536 := by
  exact ⟨rfl, rfl⟩

/-- Claim C9: resize replaces each layer by a freshly constructed Layer that
keeps only the old name: the pixel grid is a fresh grid of the new size,
opacity is reset to 1, the blend mode to Normal, visibility to true, the clip
mask is dropped and the adjustment stack is emptied; the layer count is
preserved. -/
theorem claim_C9 (c : CanvasCore) (w h : Int) :
    (c.resize w h).layers.length = c.layers.length ∧
    ∀ i : Nat, (c.resize w h).layers.get? i =
      (c.layers.get? i).map
        (fun l => Layer.mk l.name (TileGrid.make w h) 1 BlendMode.Normal true none []) := by
  constructor
  · simp [CanvasCore.resize]
  · intro i
    simp [CanvasCore.resize, List.get?_map, Layer.new]

/-- Claim C10: on every canvas whose undo stack is in a defined-behaviour
configuration (currentIndex at most the number of stored states, and a
nonempty history; these keep every element access of popState and redoState
in bounds, whereas on an empty history the canRedo underflow sends the C++
redo into an out-of-bounds read of states_[currentIndex_], which is undefined
behaviour and outside this statement), undo and redo copy restored grids only
into layers at index i below the snapshot count; any layer at a higher index
keeps its pixels (indeed the whole layer value), the layer count is
preserved, and no layer metadata (name, opacity, blend mode, visibility, clip
mask, adjustments) is ever changed; layers below both bounds receive exactly
the popped snapshot. -/
theorem claim_C10 (c : CanvasCore) (i : Nat)
    (hci : c.undoStack.currentIndex ≤ c.undoStack.states.length)
    (hne : c.undoStack.states.length ≠ 0) :
    ((c.undo).layers.length = c.layers.length ∧
     ((c.undo).layers.get? i).map Layer.name = (c.layers.get? i).map Layer.name ∧
     ((c.undo).layers.get? i).map Layer.opacity = (c.layers.get? i).map Layer.opacity ∧
     ((c.undo).layers.get? i).map Layer.blendMode = (c.layers.get? i).map Layer.blendMode ∧
     ((c.undo).layers.get? i).map Layer.visible = (c.layers.get? i).map Layer.visible ∧
     ((c.undo).layers.get? i).map Layer.clipMask = (c.layers.get? i).map Layer.clipMask ∧
     ((c.undo).layers.get? i).map Layer.adjustments = (c.layers.get? i).map Layer.adjustments ∧
     ((c.undoStack.popState).1.length ≤ i → (c.undo).layers.get? i = c.layers.get? i) ∧
     (i < c.layers.length → i < (c.undoStack.popState).1.length →
        ((c.undo).layers.get? i).map Layer.pixels = (c.undoStack.popState).1.get? i)) ∧
    ((c.redo).layers.length = c.layers.length ∧
     ((c.redo).layers.get? i).map Layer.name = (c.layers.get? i).map Layer.name ∧
     ((c.redo).layers.get? i).map Layer.opacity = (c.layers.get? i).map Layer.opacity ∧
     ((c.redo).layers.get? i).map Layer.blendMode = (c.layers.get? i).map Layer.blendMode ∧
     ((c.redo).layers.get? i).map Layer.visible = (c.layers.get? i).map Layer.visible ∧
     ((c.redo).layers.get? i).map Layer.clipMask = (c.layers.get? i).map Layer.clipMask ∧
     ((c.redo).layers.get? i).map Layer.adjustments = (c.layers.get? i).map Layer.adjustments ∧
     ((c.undoStack.redoState).1.length ≤ i → (c.redo).layers.get? i = c.layers.get? i) ∧
     (i < c.layers.length → i < (c.undoStack.redoState).1.length →
        ((c.redo).layers.get? i).map Layer.pixels = (c.undoStack.redoState).1.get? i)) := by
  constructor
  · unfold CanvasCore.undo
    by_cases h : c.undoStack.canUndo
    · simp only [if_pos h]
      refine ⟨restoreLayers_length _ _,
        restoreLayers_map_of_setPixels_inv _ Layer.name_setPixels _ _ _,
        restoreLayers_map_of_setPixels_inv _ Layer.opacity_setPixels _ _ _,
        restoreLayers_map_of_setPixels_inv _ Layer.blendMode_setPixels _ _ _,
        restoreLayers_map_of_setPixels_inv _ Layer.visible_setPixels _ _ _,
        restoreLayers_map_of_setPixels_inv _ Layer.clipMask_setPixels _ _ _,
        restoreLayers_map_of_setPixels_inv _ Layer.adjustments_setPixels _ _ _,
        fun hle => restoreLayers_get?_of_le _ _ _ hle,
        fun hi hs => restoreLayers_get?_pixels _ _ _ hi hs⟩
    · simp [if_neg h, UndoStack.popState, h]
  · unfold CanvasCore.redo
    by_cases h : c.undoStack.canRedo
    · simp only [if_pos h]
      refine ⟨restoreLayers_length _ _,
        restoreLayers_map_of_setPixels_inv _ Layer.name_setPixels _ _ _,
        restoreLayers_map_of_setPixels_inv _ Layer.opacity_setPixels _ _ _,
        restoreLayers_map_of_setPixels_inv _ Layer.blendMode_setPixels _ _ _,
        restoreLayers_map_of_setPixels_inv _ Layer.visible_setPixels _ _ _,
        restoreLayers_map_of_setPixels_inv _ Layer.clipMask_setPixels _ _ _,
        restoreLayers_map_of_setPixels_inv _ Layer.adjustments_setPixels _ _ _,
        fun hle => restoreLayers_get?_of_le _ _ _ hle,
        fun hi hs => restoreLayers_get?_pixels _ _ _ hi hs⟩
    · simp [if_neg h, UndoStack.redoState, h]

/-- Witness for claim C10: the hypotheses and an implication discharged at a
concrete canvas with a one-state history (a fresh canvas after beginStroke)
and index 0. -/
theorem claim_C10_witness :
    (CanvasCore.make 1 1).beginStroke.undoStack.currentIndex
      ≤ (CanvasCore.make 1 1).beginStroke.undoStack.states.length ∧
    (CanvasCore.make 1 1).beginStroke.undoStack.states.length ≠ 0 ∧
    (((CanvasCore.make 1 1).beginStroke.undoStack.redoState).1.length ≤ 0 ∧
      ((CanvasCore.make 1 1).beginStroke.redo).layers.get? 0
        = (CanvasCore.make 1 1).beginStroke.layers.get? 0) := by
  refine ⟨by decide, by decide, by decide, ?_⟩
  exact ((claim_C10 (CanvasCore.make 1 1).beginStroke 0 (by decide)
    (by decide)).2.2.2.2.2.2.2.2.1) (by decide)


/-! Basic facts about the binary32 rounding model. -/

theorem roundHalfEven_intCast (X : ℤ) : roundHalfEven (X : ℚ) = X := by
  unfold roundHalfEven
  rw [Int.floor_intCast]
  norm_num

theorem roundHalfEven_add_small (X : ℤ) (t : ℚ) (h1 : -(1/2) < t) (h2 : t < 1/2) :
    roundHalfEven ((X : ℚ) + t) = X := by
  unfold roundHalfEven
  rcases le_or_lt 0 t with ht | ht
  · have hf : ⌊(X : ℚ) + t⌋ = X := by
      rw [Int.floor_eq_iff]
      constructor
      · push_cast; linarith
      · push_cast; linarith
    rw [hf, if_pos]
    push_cast
    linarith
  · have hf : ⌊(X : ℚ) + t⌋ = X - 1 := by
      rw [Int.floor_eq_iff]
      constructor
      · push_cast; linarith
      · push_cast; linarith
    rw [hf, if_neg, if_pos]
    · ring
    · push_cast; linarith
    · push_cast; linarith

theorem Int.log_eq_of_zpow (v : ℚ) (e : ℤ) (hv : 0 < v)
    (h1 : (2 : ℚ) ^ e ≤ v) (h2 : v < (2 : ℚ) ^ (e + 1)) : Int.log 2 v = e := by
  have hlow : e ≤ Int.log 2 v := (Int.zpow_le_iff_le_log (by norm_num) hv).mp h1
  have hhigh : Int.log 2 v < e + 1 := (Int.lt_zpow_iff_log_lt (by norm_num) hv).mp h2
  omega

theorem RN_eq_of_binade (v : ℚ) (e : ℤ) (hv : 0 < v)
    (h1 : (2 : ℚ) ^ e ≤ v) (h2 : v < (2 : ℚ) ^ (e + 1)) :
    RN v = (roundHalfEven (v * 2 ^ ((23 : ℤ) - e)) : ℚ) * 2 ^ (e - 23) := by
  rw [RN, if_pos hv, RNpos, Int.log_eq_of_zpow v e hv h1 h2]

theorem RN_zero : RN 0 = 0 := by
  simp [RN]

theorem RN_dyadic_core (m : ℤ) (k : ℤ) (h1 : 0 < m) (h2 : m < 2 ^ 24) :
    RN ((m : ℚ) * 2 ^ k) = (m : ℚ) * 2 ^ k := by
  have h2Q : (2 : ℚ) ≠ 0 := by norm_num
  obtain ⟨j, hj1, hj2⟩ : ∃ j : ℕ, 2 ^ j ≤ m ∧ m < 2 ^ (j + 1) := by
    refine ⟨m.toNat.log2, ?_, ?_⟩
    · have h := Nat.log2_self_le (show m.toNat ≠ 0 by omega)
      have h1c : ((2 ^ m.toNat.log2 : ℕ) : ℤ) ≤ (m.toNat : ℤ) := Int.ofNat_le.mpr h
      rw [Int.toNat_of_nonneg (le_of_lt h1)] at h1c
      exact_mod_cast h1c
    · have h := Nat.lt_log2_self (n := m.toNat)
      have h1c : (m.toNat : ℤ) < ((2 ^ (m.toNat.log2 + 1) : ℕ) : ℤ) := Int.ofNat_lt.mpr h
      rw [Int.toNat_of_nonneg (le_of_lt h1)] at h1c
      exact_mod_cast h1c
  have hj23 : j ≤ 23 := by
    by_contra hc
    have hmono : (2 : ℤ) ^ 24 ≤ 2 ^ j := pow_le_pow_right₀ (by norm_num) (by omega)
    omega
  have hvpos : (0 : ℚ) < (m : ℚ) * 2 ^ k := by
    have : (0 : ℚ) < (m : ℚ) := by exact_mod_cast h1
    positivity
  have hmQ1 : (2 : ℚ) ^ (j : ℤ) ≤ (m : ℚ) := by
    rw [zpow_natCast]
    exact_mod_cast hj1
  have hmQ2 : (m : ℚ) < (2 : ℚ) ^ ((j : ℤ) + 1) := by
    rw [show (j : ℤ) + 1 = ((j + 1 : ℕ) : ℤ) by push_cast; ring, zpow_natCast]
    exact_mod_cast hj2
  have h2k : (0 : ℚ) < 2 ^ k := by positivity
  have hbin1 : (2 : ℚ) ^ ((j : ℤ) + k) ≤ (m : ℚ) * 2 ^ k := by
    rw [zpow_add₀ h2Q]
    nlinarith
  have hbin2 : (m : ℚ) * 2 ^ k < (2 : ℚ) ^ ((j : ℤ) + k + 1) := by
    rw [show (j : ℤ) + k + 1 = ((j : ℤ) + 1) + k by ring, zpow_add₀ h2Q]
    nlinarith
  rw [RN_eq_of_binade _ ((j : ℤ) + k) hvpos hbin1 hbin2]
  have hexp : ((23 - j : ℕ) : ℤ) = 23 - (j : ℤ) := by omega
  have harg : (m : ℚ) * 2 ^ k * 2 ^ ((23 : ℤ) - ((j : ℤ) + k)) = ((m * 2 ^ (23 - j) : ℤ) : ℚ) := by
    rw [mul_assoc, ← zpow_add₀ h2Q,
        show k + ((23 : ℤ) - ((j : ℤ) + k)) = ((23 - j : ℕ) : ℤ) by omega, zpow_natCast]
    push_cast
    ring
  rw [harg, roundHalfEven_intCast]
  push_cast
  rw [mul_assoc, ← zpow_natCast (2 : ℚ) (23 - j), ← zpow_add₀ h2Q,
      show ((23 - j : ℕ) : ℤ) + ((j : ℤ) + k - 23) = k by omega]

theorem RN_dyadic (m : ℤ) (k : ℤ) (h1 : 0 < m) (h2 : m ≤ 2 ^ 24) :
    RN ((m : ℚ) * 2 ^ k) = (m : ℚ) * 2 ^ k := by
  rcases lt_or_eq_of_le h2 with h | h
  · exact RN_dyadic_core m k h1 h
  · have h2Q : (2 : ℚ) ≠ 0 := by norm_num
    have hrw : (m : ℚ) * 2 ^ k = ((2 ^ 23 : ℤ) : ℚ) * 2 ^ (k + 1) := by
      rw [h]
      push_cast
      rw [zpow_add_one₀ h2Q]
      ring
    rw [hrw]
    exact RN_dyadic_core _ _ (by positivity) (by norm_num)

theorem RN_intCast (m : ℤ) (h1 : 0 ≤ m) (h2 : m ≤ 2 ^ 24) : RN (m : ℚ) = m := by
  rcases eq_or_lt_of_le h1 with h | h
  · rw [← h]; exact RN_zero
  · have := RN_dyadic m 0 h h2
    simpa using this

theorem RN_natCast (n : ℕ) (h : n ≤ 2 ^ 24) : RN (n : ℚ) = n := by
  have := RN_intCast n (by positivity) (by exact_mod_cast h)
  simpa using this

theorem RN_one : RN 1 = 1 := by
  have := RN_natCast 1 (by norm_num)
  simpa using this

theorem RN_nonneg (v : ℚ) (h : 0 ≤ v) : 0 ≤ RN v := by
  rcases eq_or_lt_of_le h with h0 | h0
  · rw [← h0, RN_zero]
  · rw [RN, if_pos h0, RNpos]
    have hfl : (0 : ℤ) ≤ ⌊v * 2 ^ ((23 : ℤ) - Int.log 2 v)⌋ := by
      apply Int.floor_nonneg.mpr
      positivity
    have hr : (0 : ℤ) ≤ roundHalfEven (v * 2 ^ ((23 : ℤ) - Int.log 2 v)) := by
      unfold roundHalfEven
      split
      · exact hfl
      · split
        · omega
        · split
          · exact hfl
          · omega
    have : (0 : ℚ) ≤ (roundHalfEven (v * 2 ^ ((23 : ℤ) - Int.log 2 v)) : ℚ) := by
      exact_mod_cast hr
    positivity

theorem RN_mantissa_bounds (v : ℚ) (h0 : 0 < v) :
    2 ^ 23 ≤ roundHalfEven (v * 2 ^ ((23 : ℤ) - Int.log 2 v)) ∧
    roundHalfEven (v * 2 ^ ((23 : ℤ) - Int.log 2 v)) ≤ 2 ^ 24 := by
  have hlow : (2 : ℚ) ^ Int.log 2 v ≤ v := Int.zpow_log_le_self (by norm_num) h0
  have hhigh : v < (2 : ℚ) ^ (Int.log 2 v + 1) := Int.lt_zpow_succ_log_self (by norm_num) v
  set e := Int.log 2 v with he
  have hp : (0 : ℚ) < 2 ^ ((23 : ℤ) - e) := by positivity
  have harg1 : (2 : ℚ) ^ (23 : ℤ) ≤ v * 2 ^ ((23 : ℤ) - e) := by
    calc (2 : ℚ) ^ (23 : ℤ) = 2 ^ e * 2 ^ ((23 : ℤ) - e) := by
          rw [← zpow_add₀ (by norm_num : (2:ℚ) ≠ 0)]; ring_nf
    _ ≤ v * 2 ^ ((23 : ℤ) - e) := by nlinarith
  have harg2 : v * 2 ^ ((23 : ℤ) - e) < (2 : ℚ) ^ (24 : ℤ) := by
    calc v * 2 ^ ((23 : ℤ) - e) < (2 : ℚ) ^ (e + 1) * 2 ^ ((23 : ℤ) - e) := by nlinarith
    _ = (2 : ℚ) ^ (24 : ℤ) := by
          rw [← zpow_add₀ (by norm_num : (2:ℚ) ≠ 0)]; ring_nf
  constructor
  · have hfl : (2 : ℤ) ^ 23 ≤ ⌊v * 2 ^ ((23 : ℤ) - e)⌋ := by
      have : ((2 : ℤ) ^ 23 : ℚ) ≤ v * 2 ^ ((23 : ℤ) - e) := by
        push_cast
        calc ((2 : ℚ) ^ (23 : ℕ)) = (2 : ℚ) ^ (23 : ℤ) := by norm_num
        _ ≤ v * 2 ^ ((23 : ℤ) - e) := harg1
      exact Int.le_floor.mpr this
    unfold roundHalfEven
    split
    · exact hfl
    · split
      · omega
      · split
        · exact hfl
        · omega
  · have hfl : ⌊v * 2 ^ ((23 : ℤ) - e)⌋ < (2 : ℤ) ^ 24 := by
      have : v * 2 ^ ((23 : ℤ) - e) < ((2 : ℤ) ^ 24 : ℚ) := by
        push_cast
        calc v * 2 ^ ((23 : ℤ) - e) < (2 : ℚ) ^ (24 : ℤ) := harg2
        _ = (2 : ℚ) ^ (24 : ℕ) := by norm_num
      exact Int.floor_lt.mpr this
    unfold roundHalfEven
    split
    · omega
    · split
      · omega
      · split
        · omega
        · omega

theorem RN_pos_eq_mantissa (v : ℚ) (h0 : 0 < v) :
    RN v = ((roundHalfEven (v * 2 ^ ((23 : ℤ) - Int.log 2 v)) : ℤ) : ℚ)
            * 2 ^ (Int.log 2 v - 23) := by
  rw [RN, if_pos h0, RNpos]

theorem RN_idem_of_nonneg (v : ℚ) (h : 0 ≤ v) : RN (RN v) = RN v := by
  rcases eq_or_lt_of_le h with h0 | h0
  · rw [← h0, RN_zero, RN_zero]
  · have hb := RN_mantissa_bounds v h0
    rw [RN_pos_eq_mantissa v h0]
    exact RN_dyadic _ (Int.log 2 v - 23) (by omega) hb.2


/-! Facts about pushState and the stroke cycle. -/

theorem getD_append_singleton {α : Type} (l : List α) (a d : α) :
    (l ++ [a]).getD l.length d = a := by
  rw [List.getD_append_right l [a] d l.length (le_refl l.length)]
  simp

theorem pushState_spec (s : UndoStack) (snaps : List TileGrid) (desc : String)
    (hci : s.currentIndex ≤ s.states.length) (hlen : s.states.length < 2 ^ 64)
    (hmax : 1 ≤ s.maxStates) :
    (s.pushState snaps desc).currentIndex = (s.pushState snaps desc).states.length ∧
    1 ≤ (s.pushState snaps desc).currentIndex ∧
    (s.pushState snaps desc).states.length ≤ 2 ^ 64 ∧
    (s.pushState snaps desc).states.getD ((s.pushState snaps desc).currentIndex - 1)
      ⟨[], "", 0⟩ = ⟨snaps, desc, 0⟩ := by
  have hLlen : (s.states.take s.currentIndex).length = s.currentIndex := by
    rw [List.length_take]
    omega
  unfold UndoStack.pushState
  set L := s.states.take s.currentIndex with hL
  set st : UndoState := ⟨snaps, desc, 0⟩ with hst
  have h1len : (L ++ [st]).length = s.currentIndex + 1 := by
    rw [List.length_append, hLlen]
    rfl
  by_cases hcap : (L ++ [st]).length ≤ s.maxStates
  · rw [if_pos hcap]
    refine ⟨?_, ?_, ?_, ?_⟩
    · show s.currentIndex + 1 = (L ++ [st]).length
      omega
    · show 1 ≤ s.currentIndex + 1
      omega
    · show (L ++ [st]).length ≤ 2 ^ 64
      omega
    · show (L ++ [st]).getD (s.currentIndex + 1 - 1) ⟨[], "", 0⟩ = st
      rw [show s.currentIndex + 1 - 1 = L.length by omega]
      exact getD_append_singleton _ _ _
  · rw [if_neg hcap]
    rw [h1len] at hcap
    have hrm : (L ++ [st]).length - s.maxStates ≤ L.length := by omega
    have hmod : (s.currentIndex + 1 + 2 ^ 64 - ((L ++ [st]).length - s.maxStates)) % 2 ^ 64
        = s.maxStates := by omega
    have hdlen : ((L ++ [st]).drop ((L ++ [st]).length - s.maxStates)).length
        = s.maxStates := by
      rw [List.length_drop]
      omega
    refine ⟨?_, ?_, ?_, ?_⟩
    · show (s.currentIndex + 1 + 2 ^ 64 - ((L ++ [st]).length - s.maxStates)) % 2 ^ 64
        = ((L ++ [st]).drop ((L ++ [st]).length - s.maxStates)).length
      rw [hmod, hdlen]
    · show 1 ≤ (s.currentIndex + 1 + 2 ^ 64 - ((L ++ [st]).length - s.maxStates)) % 2 ^ 64
      rw [hmod]
      omega
    · show ((L ++ [st]).drop ((L ++ [st]).length - s.maxStates)).length ≤ 2 ^ 64
      rw [hdlen]
      omega
    · show ((L ++ [st]).drop ((L ++ [st]).length - s.maxStates)).getD
          ((s.currentIndex + 1 + 2 ^ 64 - ((L ++ [st]).length - s.maxStates)) % 2 ^ 64 - 1)
          ⟨[], "", 0⟩ = st
      rw [hmod, List.drop_append_of_le_length hrm,
          show s.maxStates - 1 = (L.drop ((L ++ [st]).length - s.maxStates)).length by
            rw [List.length_drop]; omega]
      exact getD_append_singleton _ _ _

theorem applyKernelOp_undoStack (c : CanvasCore) (op : KernelOp) :
    (applyKernelOp c op).undoStack = c.undoStack := by
  cases op <;>
    simp only [applyKernelOp, CanvasCore.drawBrushStroke, CanvasCore.eraseBrushStroke] <;>
    split <;> rfl

theorem applyKernelOp_layers_length (c : CanvasCore) (op : KernelOp) :
    (applyKernelOp c op).layers.length = c.layers.length := by
  cases op <;>
    simp only [applyKernelOp, CanvasCore.drawBrushStroke, CanvasCore.eraseBrushStroke] <;>
    split <;> simp [List.length_set]

theorem applyKernelOps_undoStack (c : CanvasCore) (ops : List KernelOp) :
    (applyKernelOps c ops).undoStack = c.undoStack := by
  induction ops generalizing c with
  | nil => rfl
  | cons op ops ih =>
    calc (applyKernelOps (applyKernelOp c op) ops).undoStack
        = (applyKernelOp c op).undoStack := ih _
      _ = c.undoStack := applyKernelOp_undoStack c op

theorem applyKernelOps_layers_length (c : CanvasCore) (ops : List KernelOp) :
    (applyKernelOps c ops).layers.length = c.layers.length := by
  induction ops generalizing c with
  | nil => rfl
  | cons op ops ih =>
    calc (applyKernelOps (applyKernelOp c op) ops).layers.length
        = (applyKernelOp c op).layers.length := ih _
      _ = c.layers.length := applyKernelOp_layers_length c op

theorem stroke_undo_spec (c : CanvasCore) (ops : List KernelOp)
    (hci : c.undoStack.currentIndex ≤ c.undoStack.states.length)
    (hlen : c.undoStack.states.length < 2 ^ 64)
    (hmax : 1 ≤ c.undoStack.maxStates) :
    ((applyKernelOps c.beginStroke ops).undo).layers.map Layer.pixels
      = c.layers.map Layer.pixels ∧
    ((applyKernelOps c.beginStroke ops).undo).undoStack.canRedo = false := by
  obtain ⟨hp1, hp2, hp3, hp4⟩ :=
    pushState_spec c.undoStack (c.layers.map Layer.pixels) "Brush Stroke" hci hlen hmax
  have hstack : (applyKernelOps c.beginStroke ops).undoStack
      = c.undoStack.pushState (c.layers.map Layer.pixels) "Brush Stroke" := by
    rw [applyKernelOps_undoStack]
    rfl
  have hlay : (applyKernelOps c.beginStroke ops).layers.length = c.layers.length := by
    rw [applyKernelOps_layers_length]
    rfl
  set s1 := c.undoStack.pushState (c.layers.map Layer.pixels) "Brush Stroke" with hs1
  have hcanUndo : s1.canUndo = true := by
    unfold UndoStack.canUndo
    simp only [decide_eq_true_eq]
    omega
  have hpop : s1.popState = ((s1.states.getD (s1.currentIndex - 1) ⟨[], "", 0⟩).layerSnapshots,
      (⟨s1.states, s1.currentIndex - 1, s1.maxStates⟩ : UndoStack)) := by
    unfold UndoStack.popState
    rw [if_pos hcanUndo]
  have hsnaps : (s1.popState).1 = c.layers.map Layer.pixels := by
    rw [hpop, hp4]
  have hundo : (applyKernelOps c.beginStroke ops).undo
      = { applyKernelOps c.beginStroke ops with
          layers := restoreLayers (applyKernelOps c.beginStroke ops).layers (s1.popState).1
          undoStack := (s1.popState).2 } := by
    unfold CanvasCore.undo
    rw [hstack, if_pos hcanUndo]
  constructor
  · rw [hundo]
    show (restoreLayers (applyKernelOps c.beginStroke ops).layers (s1.popState).1).map
        Layer.pixels = c.layers.map Layer.pixels
    rw [hsnaps, restoreLayers_map_pixels]
    rw [hlay, List.length_map]
  · rw [hundo]
    show ((s1.popState).2).canRedo = false
    rw [hpop]
    unfold UndoStack.canRedo
    simp only [decide_eq_false_iff_not, not_lt]
    omega

/-- Claim C1: for every canvas whose undo stack satisfies the reachable-state
invariants (currentIndex within the history, history below the size_t bound,
capacity at least one; every stack reachable from the constructor satisfies
these, the constructed stack being empty with capacity 50), recording a stroke
with beginStroke, applying any sequence of brush or eraser kernel mutations,
and calling undo restores every layer pixel grid to its value from immediately
before beginStroke: the snapshots pushed at stroke begin are deep copies, so
the later kernel mutations never alter them. -/
theorem claim_C1 (c : CanvasCore) (ops : List KernelOp)
    (hci : c.undoStack.currentIndex ≤ c.undoStack.states.length)
    (hlen : c.undoStack.states.length < 2 ^ 64)
    (hmax : 1 ≤ c.undoStack.maxStates) :
    ((applyKernelOps c.beginStroke ops).undo).layers.map Layer.pixels
      = c.layers.map Layer.pixels :=
  (stroke_undo_spec c ops hci hlen hmax).1

/-- Witness for claim C1: the hypotheses discharged on a freshly constructed
canvas with one brush mutation. -/
theorem claim_C1_witness :
    (CanvasCore.make 4 4).undoStack.currentIndex
      ≤ (CanvasCore.make 4 4).undoStack.states.length ∧
    (CanvasCore.make 4 4).undoStack.states.length < 2 ^ 64 ∧
    1 ≤ (CanvasCore.make 4 4).undoStack.maxStates ∧
    ((applyKernelOps (CanvasCore.make 4 4).beginStroke
        [KernelOp.brush 0 [(1, 1)] 2 1 ⟨65535, 0, 0, 65535⟩]).undo).layers.map Layer.pixels
      = (CanvasCore.make 4 4).layers.map Layer.pixels :=
  ⟨by decide, by decide, by decide,
   claim_C1 (CanvasCore.make 4 4) [KernelOp.brush 0 [(1, 1)] 2 1 ⟨65535, 0, 0, 65535⟩]
     (by decide) (by decide) (by decide)⟩

/-- Claim C3, amended: after a stroke is recorded (beginStroke, then any
kernel mutations), undo restores the pre-stroke pixel grids and the
subsequent redo is a no-op, because after the undo canRedo compares
currentIndex = states.length - 1 against states.length - 1 and answers
false. Undo followed by redo therefore leaves every layer pixel grid at its
PRE-stroke value, not at the post-stroke value the original claim asserts. -/
theorem claim_C3 (c : CanvasCore) (ops : List KernelOp)
    (hci : c.undoStack.currentIndex ≤ c.undoStack.states.length)
    (hlen : c.undoStack.states.length < 2 ^ 64)
    (hmax : 1 ≤ c.undoStack.maxStates) :
    (((applyKernelOps c.beginStroke ops).undo).redo
        = (applyKernelOps c.beginStroke ops).undo) ∧
    ((((applyKernelOps c.beginStroke ops).undo).redo).layers.map Layer.pixels
        = c.layers.map Layer.pixels) := by
  obtain ⟨hpix, hredo⟩ := stroke_undo_spec c ops hci hlen hmax
  have hnoop : ((applyKernelOps c.beginStroke ops).undo).redo
      = (applyKernelOps c.beginStroke ops).undo := by
    unfold CanvasCore.redo
    rw [hredo]
    simp
  exact ⟨hnoop, by rw [hnoop, hpix]⟩

/-- Witness for claim C3: the hypotheses discharged on a freshly constructed
canvas with one brush mutation. -/
theorem claim_C3_witness :
    (CanvasCore.make 4 4).undoStack.currentIndex
      ≤ (CanvasCore.make 4 4).undoStack.states.length ∧
    ((((applyKernelOps (CanvasCore.make 4 4).beginStroke
        [KernelOp.brush 0 [(1, 1)] 2 1 ⟨65535, 0, 0, 65535⟩]).undo).redo).layers.map
          Layer.pixels
      = (CanvasCore.make 4 4).layers.map Layer.pixels) :=
  ⟨by decide,
   (claim_C3 (CanvasCore.make 4 4) [KernelOp.brush 0 [(1, 1)] 2 1 ⟨65535, 0, 0, 65535⟩]
     (by decide) (by decide) (by decide)).2⟩


/-! Read and write lemmas for tiles and tile grids. -/

theorem Tile.atRead_new (x y : Int) : Tile.new.atRead x y = Pixel.mk0 := by
  unfold Tile.atRead Tile.new
  split <;> rfl

theorem TileGrid.setPixel_width (g : TileGrid) (x y : Int) (p : Pixel) :
    (g.setPixel x y p).width = g.width := by
  unfold TileGrid.setPixel
  split <;> rfl

theorem TileGrid.setPixel_height (g : TileGrid) (x y : Int) (p : Pixel) :
    (g.setPixel x y p).height = g.height := by
  unfold TileGrid.setPixel
  split <;> rfl

theorem TileGrid.setPixel_tileCountX (g : TileGrid) (x y : Int) (p : Pixel) :
    (g.setPixel x y p).tileCountX = g.tileCountX := by
  unfold TileGrid.setPixel
  split <;> rfl

theorem TileGrid.setPixel_tileCountY (g : TileGrid) (x y : Int) (p : Pixel) :
    (g.setPixel x y p).tileCountY = g.tileCountY := by
  unfold TileGrid.setPixel
  split <;> rfl

theorem row_major_inj (a b a2 b2 c : ℤ) (hb : 0 ≤ b) (hb2 : b < c) (hc : 0 ≤ b2)
    (hc2 : b2 < c) (h : a * c + b = a2 * c + b2) : a = a2 ∧ b = b2 := by
  have hdvd : c ∣ (b2 - b) := ⟨a - a2, by linarith [h]⟩
  have habs : |b2 - b| < c := by
    rw [abs_lt]
    omega
  have hz : b2 - b = 0 := Int.eq_zero_of_abs_lt_dvd hdvd habs
  have hc0 : c ≠ 0 := by omega
  have ha : a = a2 := by
    have hmul : a * c = a2 * c := by omega
    exact mul_right_cancel₀ hc0 hmul
  omega

theorem getPixelRead_setPixel_self (g : TileGrid) (x y : Int) (p : Pixel)
    (hx0 : 0 ≤ x) (hx : x < 256 * g.tileCountX) (hy0 : 0 ≤ y) (hy : y < 256 * g.tileCountY) :
    (g.setPixel x y p).getPixelRead x y = p := by
  have hdx : Int.tdiv x 256 = x / 256 := Int.tdiv_eq_ediv hx0 (by norm_num)
  have hdy : Int.tdiv y 256 = y / 256 := Int.tdiv_eq_ediv hy0 (by norm_num)
  have hmx : Int.tmod x 256 = x % 256 := Int.tmod_eq_emod hx0 (by norm_num)
  have hmy : Int.tmod y 256 = y % 256 := Int.tmod_eq_emod hy0 (by norm_num)
  have hguard : ¬ (Int.tdiv x 256 < 0 ∨ g.tileCountX ≤ Int.tdiv x 256 ∨
      Int.tdiv y 256 < 0 ∨ g.tileCountY ≤ Int.tdiv y 256) := by
    rw [hdx, hdy]
    omega
  have hlguard : ¬ (Int.tmod x 256 < 0 ∨ 256 ≤ Int.tmod x 256 ∨
      Int.tmod y 256 < 0 ∨ 256 ≤ Int.tmod y 256) := by
    rw [hmx, hmy]
    omega
  unfold TileGrid.setPixel
  rw [if_neg hguard]
  unfold TileGrid.getPixelRead TileGrid.getTileRead
  dsimp only
  rw [if_neg hguard, if_pos rfl]
  unfold Tile.setAt
  rw [if_neg hlguard]
  unfold Tile.atRead
  rw [if_neg hlguard]
  dsimp only
  rw [if_pos rfl]

theorem getPixelRead_setPixel_of_ne (g : TileGrid) (x y u v : Int) (p : Pixel)
    (hne : ¬ (u = x ∧ v = y)) :
    (g.setPixel x y p).getPixelRead u v = g.getPixelRead u v := by
  by_cases hw : Int.tdiv x 256 < 0 ∨ g.tileCountX ≤ Int.tdiv x 256 ∨
      Int.tdiv y 256 < 0 ∨ g.tileCountY ≤ Int.tdiv y 256
  · unfold TileGrid.setPixel
    rw [if_pos hw]
  · unfold TileGrid.setPixel
    rw [if_neg hw]
    unfold TileGrid.getPixelRead TileGrid.getTileRead
    dsimp only
    by_cases hr : Int.tdiv u 256 < 0 ∨ g.tileCountX ≤ Int.tdiv u 256 ∨
        Int.tdiv v 256 < 0 ∨ g.tileCountY ≤ Int.tdiv v 256
    · rw [if_pos hr, if_pos hr]
    · rw [if_neg hr, if_neg hr]
      by_cases hidx : (Int.tdiv v 256 * g.tileCountX + Int.tdiv u 256).toNat
          = (Int.tdiv y 256 * g.tileCountX + Int.tdiv x 256).toNat
      · rw [if_pos hidx, hidx]
        unfold Tile.setAt
        by_cases hwl : Int.tmod x 256 < 0 ∨ 256 ≤ Int.tmod x 256 ∨
            Int.tmod y 256 < 0 ∨ 256 ≤ Int.tmod y 256
        · rw [if_pos hwl]
        · rw [if_neg hwl]
          unfold Tile.atRead
          by_cases hrl : Int.tmod u 256 < 0 ∨ 256 ≤ Int.tmod u 256 ∨
              Int.tmod v 256 < 0 ∨ 256 ≤ Int.tmod v 256
          · rw [if_pos hrl, if_pos hrl]
          · rw [if_neg hrl, if_neg hrl]
            dsimp only
            rw [if_neg ?hpix]
            case hpix =>
              intro hpeq
              have hiu : 256 * Int.tdiv u 256 + Int.tmod u 256 = u := by
                have := Int.tdiv_add_tmod u 256
                linarith [this]
              have hix : 256 * Int.tdiv x 256 + Int.tmod x 256 = x := by
                have := Int.tdiv_add_tmod x 256
                linarith [this]
              have hiv : 256 * Int.tdiv v 256 + Int.tmod v 256 = v := by
                have := Int.tdiv_add_tmod v 256
                linarith [this]
              have hiy : 256 * Int.tdiv y 256 + Int.tmod y 256 = y := by
                have := Int.tdiv_add_tmod y 256
                linarith [this]
              have hlocal : Int.tmod v 256 * 256 + Int.tmod u 256
                  = Int.tmod y 256 * 256 + Int.tmod x 256 := by omega
              obtain ⟨hveq, hueq⟩ := row_major_inj (Int.tmod v 256) (Int.tmod u 256)
                (Int.tmod y 256) (Int.tmod x 256) 256 (by omega) (by omega) (by omega)
                (by omega) hlocal
              have hp1 : 0 ≤ Int.tdiv v 256 * g.tileCountX :=
                mul_nonneg (by omega) (by omega)
              have hp2 : 0 ≤ Int.tdiv y 256 * g.tileCountX :=
                mul_nonneg (by omega) (by omega)
              have htile : Int.tdiv v 256 * g.tileCountX + Int.tdiv u 256
                  = Int.tdiv y 256 * g.tileCountX + Int.tdiv x 256 := by omega
              obtain ⟨hveq2, hueq2⟩ := row_major_inj (Int.tdiv v 256) (Int.tdiv u 256)
                (Int.tdiv y 256) (Int.tdiv x 256) g.tileCountX (by omega) (by omega)
                (by omega) (by omega) htile
              exact hne ⟨by omega, by omega⟩
      · rw [if_neg hidx]

/-- Claim C8, amended. The Tile part of the claim holds: out-of-range local
indices read the default pixel (0, 0, 0, 65535) and writes through them are
absorbed without modifying the stored pixels. On a TileGrid, out-of-range
TILE coordinates read as a default tile, and pixel coordinates whose tile
coordinates fall outside the allocated range, or whose local remainder is
negative, read as default and write as no-ops on the grid. The original claim
is too strong for the remaining case: a pixel coordinate can exceed the
width-height rectangle while still mapping into an allocated tile (the
padding of a partial edge tile, for example x = 310 on a 300-pixel-wide
grid); such reads return the stored padding pixel and such writes DO modify
a stored tile, as claim_C8_counterexample shows. -/
theorem claim_C8 (t : Tile) (g : TileGrid) (x y tx ty : Int) (p : Pixel) :
    (x < 0 ∨ 256 ≤ x ∨ y < 0 ∨ 256 ≤ y →
       t.atRead x y = Pixel.mk0 ∧ t.setAt x y p = t) ∧
    (tx < 0 ∨ g.tileCountX ≤ tx ∨ ty < 0 ∨ g.tileCountY ≤ ty →
       g.getTileRead tx ty = Tile.new) ∧
    (Int.tdiv x 256 < 0 ∨ g.tileCountX ≤ Int.tdiv x 256 ∨
       Int.tdiv y 256 < 0 ∨ g.tileCountY ≤ Int.tdiv y 256 →
       g.getPixelRead x y = Pixel.mk0 ∧ g.setPixel x y p = g) ∧
    (¬ (Int.tdiv x 256 < 0 ∨ g.tileCountX ≤ Int.tdiv x 256 ∨
        Int.tdiv y 256 < 0 ∨ g.tileCountY ≤ Int.tdiv y 256) →
       Int.tmod x 256 < 0 ∨ Int.tmod y 256 < 0 →
       g.getPixelRead x y = Pixel.mk0 ∧ g.setPixel x y p = g) := by
  refine ⟨?_, ?_, ?_, ?_⟩
  · intro h
    constructor
    · unfold Tile.atRead
      rw [if_pos h]
    · unfold Tile.setAt
      rw [if_pos h]
  · intro h
    unfold TileGrid.getTileRead
    rw [if_pos h]
  · intro h
    constructor
    · unfold TileGrid.getPixelRead TileGrid.getTileRead
      rw [if_pos h]
      exact Tile.atRead_new _ _
    · unfold TileGrid.setPixel
      rw [if_pos h]
  · intro h hloc
    constructor
    · unfold TileGrid.getPixelRead TileGrid.getTileRead
      rw [if_neg h]
      unfold Tile.atRead
      rw [if_pos (by omega)]
    · unfold TileGrid.setPixel
      rw [if_neg h]
      have hset : (g.tiles (Int.tdiv y 256 * g.tileCountX + Int.tdiv x 256).toNat).setAt
          (Int.tmod x 256) (Int.tmod y 256) p
          = g.tiles (Int.tdiv y 256 * g.tileCountX + Int.tdiv x 256).toNat := by
        unfold Tile.setAt
        rw [if_pos (by omega)]
      rw [hset]
      obtain ⟨gw, gh, gcx, gcy, gts⟩ := g
      dsimp only
      congr 1
      funext i
      split <;> simp_all

/-- Counterexample for claim C8: on a 300 x 1 grid, pixel coordinate
x = 310 is out of range for the 300-pixel width, yet the write lands in the
padding of the allocated second tile and modifies a stored pixel of the
grid itself, and the value can be read back. -/
theorem claim_C8_counterexample :
    (TileGrid.make 300 1).width = 300 ∧
    (((TileGrid.make 300 1).setPixel 310 0 ⟨1, 2, 3, 4⟩).tiles 1).pixels 54 = ⟨1, 2, 3, 4⟩ ∧
    ((TileGrid.make 300 1).tiles 1).pixels 54 = Pixel.mk0 ∧
    ((TileGrid.make 300 1).setPixel 310 0 ⟨1, 2, 3, 4⟩).getPixelRead 310 0 = ⟨1, 2, 3, 4⟩ ∧
    ((⟨1, 2, 3, 4⟩ : Pixel) ≠ Pixel.mk0) := by
  refine ⟨rfl, ?_, rfl, ?_, by decide⟩
  · rfl
  · rfl

/-- Witness for claim C8: the guarded cases discharged at concrete inputs. -/
theorem claim_C8_witness :
    (Tile.new.atRead 300 7 = Pixel.mk0 ∧ Tile.new.setAt 300 7 ⟨1, 2, 3, 4⟩ = Tile.new) ∧
    ((TileGrid.make 256 256).getPixelRead (-300) 0 = Pixel.mk0 ∧
      (TileGrid.make 256 256).setPixel (-300) 0 ⟨1, 2, 3, 4⟩ = TileGrid.make 256 256) ∧
    ((TileGrid.make 256 256).getPixelRead (-5) 0 = Pixel.mk0 ∧
      (TileGrid.make 256 256).setPixel (-5) 0 ⟨1, 2, 3, 4⟩ = TileGrid.make 256 256) :=
  ⟨(claim_C8 Tile.new (TileGrid.make 256 256) 300 7 0 0 ⟨1, 2, 3, 4⟩).1 (by decide),
   (claim_C8 Tile.new (TileGrid.make 256 256) (-300) 0 0 0 ⟨1, 2, 3, 4⟩).2.2.1 (by decide),
   (claim_C8 Tile.new (TileGrid.make 256 256) (-5) 0 0 0 ⟨1, 2, 3, 4⟩).2.2.2 (by decide)
     (by decide)⟩


/-! Fold lemmas for the matrix round trip. -/

theorem innerFold_tileCountX (pix : Nat → Pixel) (y : Int) (xs : List Nat) (g0 : TileGrid) :
    (xs.foldl (fun gx x => gx.setPixel (x : Int) y (pix x)) g0).tileCountX = g0.tileCountX := by
  induction xs generalizing g0 with
  | nil => rfl
  | cons x rest ih =>
    simp only [List.foldl_cons]
    rw [ih, TileGrid.setPixel_tileCountX]

theorem innerFold_tileCountY (pix : Nat → Pixel) (y : Int) (xs : List Nat) (g0 : TileGrid) :
    (xs.foldl (fun gx x => gx.setPixel (x : Int) y (pix x)) g0).tileCountY = g0.tileCountY := by
  induction xs generalizing g0 with
  | nil => rfl
  | cons x rest ih =>
    simp only [List.foldl_cons]
    rw [ih, TileGrid.setPixel_tileCountY]

theorem innerFold_read_ne_row (pix : Nat → Pixel) (y : Int) (xs : List Nat) (g0 : TileGrid)
    (u v : Int) (hv : v ≠ y) :
    (xs.foldl (fun gx x => gx.setPixel (x : Int) y (pix x)) g0).getPixelRead u v
      = g0.getPixelRead u v := by
  induction xs generalizing g0 with
  | nil => rfl
  | cons x rest ih =>
    simp only [List.foldl_cons]
    rw [ih, getPixelRead_setPixel_of_ne]
    intro hc
    exact hv hc.2

theorem innerFold_read_notMem (pix : Nat → Pixel) (y : Int) (xs : List Nat) (g0 : TileGrid)
    (u v : Int) (hu : ∀ x ∈ xs, (x : Int) ≠ u) :
    (xs.foldl (fun gx x => gx.setPixel (x : Int) y (pix x)) g0).getPixelRead u v
      = g0.getPixelRead u v := by
  induction xs generalizing g0 with
  | nil => rfl
  | cons x rest ih =>
    simp only [List.foldl_cons]
    rw [ih _ (fun x hx => hu x (List.mem_cons_of_mem _ hx)), getPixelRead_setPixel_of_ne]
    intro hc
    exact hu x (List.mem_cons_self x rest) hc.1.symm

theorem innerFold_read_mem (pix : Nat → Pixel) (y : Int) (xs : List Nat) (g0 : TileGrid)
    (u : Nat) (hu : u ∈ xs)
    (hux : (u : Int) < 256 * g0.tileCountX) (hy0 : 0 ≤ y) (hyy : y < 256 * g0.tileCountY) :
    (xs.foldl (fun gx x => gx.setPixel (x : Int) y (pix x)) g0).getPixelRead u y = pix u := by
  induction xs generalizing g0 with
  | nil => simp at hu
  | cons x rest ih =>
    simp only [List.foldl_cons]
    by_cases hmem : u ∈ rest
    · exact ih _ hmem (by rw [TileGrid.setPixel_tileCountX]; exact hux)
        (by rw [TileGrid.setPixel_tileCountY]; exact hyy)
    · have hux2 : u = x := by
        rcases List.mem_cons.mp hu with h | h
        · exact h
        · exact absurd h hmem
      subst hux2
      rw [innerFold_read_notMem pix y rest _ u y
        (fun x2 hx2 h2 => hmem (by rwa [Nat.cast_inj.mp h2] at hx2))]
      exact getPixelRead_setPixel_self g0 u y (pix u) (by positivity) hux hy0 hyy

theorem outerFold_tileCountX (pix2 : Nat → Nat → Pixel) (xs ys : List Nat) (g0 : TileGrid) :
    (ys.foldl (fun gy y =>
        xs.foldl (fun gx x => gx.setPixel (x : Int) (y : Int) (pix2 x y)) gy) g0).tileCountX
      = g0.tileCountX := by
  induction ys generalizing g0 with
  | nil => rfl
  | cons y rest ih =>
    simp only [List.foldl_cons]
    rw [ih, innerFold_tileCountX]

theorem outerFold_tileCountY (pix2 : Nat → Nat → Pixel) (xs ys : List Nat) (g0 : TileGrid) :
    (ys.foldl (fun gy y =>
        xs.foldl (fun gx x => gx.setPixel (x : Int) (y : Int) (pix2 x y)) gy) g0).tileCountY
      = g0.tileCountY := by
  induction ys generalizing g0 with
  | nil => rfl
  | cons y rest ih =>
    simp only [List.foldl_cons]
    rw [ih, innerFold_tileCountY]

theorem outerFold_read_notMem (pix2 : Nat → Nat → Pixel) (xs ys : List Nat) (g0 : TileGrid)
    (u v : Int) (hv : ∀ y ∈ ys, (y : Int) ≠ v) :
    (ys.foldl (fun gy y =>
        xs.foldl (fun gx x => gx.setPixel (x : Int) (y : Int) (pix2 x y)) gy) g0).getPixelRead
        u v = g0.getPixelRead u v := by
  induction ys generalizing g0 with
  | nil => rfl
  | cons y rest ih =>
    simp only [List.foldl_cons]
    rw [ih _ (fun y2 hy2 => hv y2 (List.mem_cons_of_mem _ hy2)),
        innerFold_read_ne_row]
    exact fun hc => hv y (List.mem_cons_self y rest) hc.symm

theorem outerFold_read_mem (pix2 : Nat → Nat → Pixel) (xs ys : List Nat) (g0 : TileGrid)
    (u v : Nat) (hu : u ∈ xs) (hv : v ∈ ys)
    (hux : (u : Int) < 256 * g0.tileCountX) (hvy : (v : Int) < 256 * g0.tileCountY) :
    (ys.foldl (fun gy y =>
        xs.foldl (fun gx x => gx.setPixel (x : Int) (y : Int) (pix2 x y)) gy) g0).getPixelRead
        u v = pix2 u v := by
  induction ys generalizing g0 with
  | nil => simp at hv
  | cons y rest ih =>
    simp only [List.foldl_cons]
    by_cases hmem : v ∈ rest
    · exact ih _ hmem (by rw [innerFold_tileCountX]; exact hux)
        (by rw [innerFold_tileCountY]; exact hvy)
    · have hvy2 : v = y := by
        rcases List.mem_cons.mp hv with h | h
        · exact h
        · exact absurd h hmem
      subst hvy2
      rw [outerFold_read_notMem pix2 xs rest _ u v
        (fun y2 hy2 h2 => hmem (by rwa [Nat.cast_inj.mp h2] at hy2))]
      exact innerFold_read_mem (fun x => pix2 x v) (v : Int) xs g0 u hu hux
        (by positivity) hvy

theorem width_le_tileSpan (w : Int) (hw : 0 ≤ w) : w ≤ 256 * Int.tdiv (w + 255) 256 := by
  rw [Int.tdiv_eq_ediv (by omega) (by norm_num)]
  omega

/-- Claim C7: converting a coherent tile grid to the external 16-bit BGRA
matrix and back (fromMat on a freshly constructed grid of the same size,
applied to toMat of the grid) yields the same value at every pixel of the
width x height image, in all four channels. -/
theorem claim_C7 (g : TileGrid)
    (x y : Int) (hx0 : 0 ≤ x) (hx : x < g.width) (hy0 : 0 ≤ y) (hy : y < g.height) :
    ((TileGrid.make g.width g.height).fromMat g.toMat).getPixelRead x y
      = g.getPixelRead x y := by
  have hW0 : 0 ≤ g.width := by omega
  have hH0 : 0 ≤ g.height := by omega
  have hcxm : (TileGrid.make g.width g.height).tileCountX = Int.tdiv (g.width + 255) 256 := rfl
  have hcym : (TileGrid.make g.width g.height).tileCountY = Int.tdiv (g.height + 255) 256 := rfl
  have hguard : ¬ ((TileGrid.toMat g).rows ≠ (TileGrid.make g.width g.height).height ∨
      (TileGrid.toMat g).cols ≠ (TileGrid.make g.width g.height).width) := by
    push_neg
    exact ⟨rfl, rfl⟩
  unfold TileGrid.fromMat
  rw [if_neg hguard]
  have hxmem : x.toNat ∈ List.range (TileGrid.make g.width g.height).width.toNat := by
    rw [List.mem_range]
    show x.toNat < g.width.toNat
    omega
  have hymem : y.toNat ∈ List.range (TileGrid.make g.width g.height).height.toNat := by
    rw [List.mem_range]
    show y.toNat < g.height.toNat
    omega
  have hxc : x = ((x.toNat : Nat) : Int) := by omega
  have hyc : y = ((y.toNat : Nat) : Int) := by omega
  rw [hxc, hyc]
  rw [outerFold_read_mem
      (fun x2 y2 => ⟨(TileGrid.toMat g).data (y2 : Int) (x2 : Int) 2,
        (TileGrid.toMat g).data (y2 : Int) (x2 : Int) 1,
        (TileGrid.toMat g).data (y2 : Int) (x2 : Int) 0,
        (TileGrid.toMat g).data (y2 : Int) (x2 : Int) 3⟩)
      (List.range (TileGrid.make g.width g.height).width.toNat)
      (List.range (TileGrid.make g.width g.height).height.toNat)
      (TileGrid.make g.width g.height) x.toNat y.toNat hxmem hymem
      (by rw [hcxm]
          have := width_le_tileSpan g.width hW0
          omega)
      (by rw [hcym]
          have := width_le_tileSpan g.height hH0
          omega)]
  show (⟨(g.getPixelRead (x.toNat : Int) (y.toNat : Int)).r,
         (g.getPixelRead (x.toNat : Int) (y.toNat : Int)).g,
         (g.getPixelRead (x.toNat : Int) (y.toNat : Int)).b,
         (g.getPixelRead (x.toNat : Int) (y.toNat : Int)).a⟩ : Pixel)
      = g.getPixelRead (x.toNat : Int) (y.toNat : Int)
  rfl

/-- Witness for claim C7: the round trip evaluated on a concrete coherent
grid and pixel. -/
theorem claim_C7_witness :
    (0 : Int) ≤ 1 ∧
    ((TileGrid.make (TileGrid.make 3 2).width (TileGrid.make 3 2).height).fromMat
        (TileGrid.make 3 2).toMat).getPixelRead 1 1
      = (TileGrid.make 3 2).getPixelRead 1 1 :=
  ⟨by decide, claim_C7 (TileGrid.make 3 2) 1 1 (by decide) (by decide) (by decide)
    (by decide)⟩


/-- Claim C5, amended. Every filter plugin polls cancelled only AFTER
processing a tile, so a callback whose cancelled() answers true from the very
first poll onward does not leave the buffer unchanged: the first tile has
already been transformed when the first poll is reached, and the plugin then
returns, leaving every other tile untouched. Stated over the loop shared by
all four plugins, for an arbitrary per-tile transform f (each plugin is an
instance of processPlugin at its own f): with at least one tile, tile 0 is
replaced by f 0 applied to it and all later tiles are unchanged. -/
theorem claim_C5 (f : Nat → Tile → Tile) (data : Nat → Tile) (w h : Int)
    (cancelled : Nat → Bool)
    (hc : cancelled 0 = true) (hw : 1 ≤ w) (hh : 1 ≤ h) :
    processPlugin f data w h cancelled 0 = f 0 (data 0) ∧
    ∀ j, j ≠ 0 → processPlugin f data w h cancelled j = data j := by
  have hcx : 1 ≤ Int.tdiv (w + 255) 256 := by
    rw [Int.tdiv_eq_ediv (by omega) (by norm_num)]
    omega
  have hcy : 1 ≤ Int.tdiv (h + 255) 256 := by
    rw [Int.tdiv_eq_ediv (by omega) (by norm_num)]
    omega
  have hn1 : (1 : Int) ≤ Int.tdiv (w + 255) 256 * Int.tdiv (h + 255) 256 := by nlinarith
  obtain ⟨k, hk⟩ : ∃ k, (Int.tdiv (w + 255) 256 * Int.tdiv (h + 255) 256).toNat = k + 1 :=
    ⟨(Int.tdiv (w + 255) 256 * Int.tdiv (h + 255) 256).toNat - 1, by omega⟩
  unfold processPlugin
  rw [hk]
  unfold processPluginGo
  rw [hc]
  constructor
  · simp
  · intro j hj
    simp [hj]

/-- Counterexample for claim C5: a one-tile buffer whose single nonzero pixel
sits at the origin, processed by the Gaussian blur plugin with a callback
cancelled from the very first poll, comes back with that pixel changed from
red 9000 to red 4000 (the 3 x 3 reflected box mean), so the buffer is not
left unchanged. -/
theorem claim_C5_counterexample :
    ((processGaussianBlur
        (fun _ => ⟨0, 0, fun i => if i = 0 then ⟨9000, 0, 0, 65535⟩ else Pixel.mk0, false⟩)
        1 1 (fun _ => true)) 0).atRead 0 0 = ⟨4000, 0, 0, 65535⟩ ∧
    (⟨0, 0, fun i => if i = 0 then ⟨9000, 0, 0, 65535⟩ else Pixel.mk0, false⟩ : Tile).atRead
        0 0 = ⟨9000, 0, 0, 65535⟩ ∧
    (⟨4000, 0, 0, 65535⟩ : Pixel) ≠ ⟨9000, 0, 0, 65535⟩ := by
  refine ⟨by decide, by decide, by decide⟩

/-- Witness for claim C5: the hypotheses discharged at a concrete one-tile
buffer, the Gaussian blur transform, and an always-true cancellation
callback. -/
theorem claim_C5_witness :
    ((fun _ : Nat => true) 0 = true) ∧
    processPlugin (fun _ => fastGaussianBlurS1) (fun _ => Tile.new) 1 1 (fun _ => true) 0
      = fastGaussianBlurS1 Tile.new ∧
    processPlugin (fun _ => fastGaussianBlurS1) (fun _ => Tile.new) 1 1 (fun _ => true) 7
      = Tile.new := by
  have h := claim_C5 (fun _ => fastGaussianBlurS1) (fun _ => Tile.new) 1 1 (fun _ => true)
    rfl (by decide) (by decide)
  exact ⟨rfl, h.1, h.2 7 (by decide)⟩


/-! The normalize and denormalize round trip through binary32. -/

theorem floor_natCast_div65535 (N : Nat) : ⌊(N : ℚ) / 65535⌋ = ((N / 65535 : ℕ) : ℤ) := by
  have hdm := Nat.div_add_mod N 65535
  have hdmq : 65535 * ((N / 65535 : ℕ) : ℚ) + ((N % 65535 : ℕ) : ℚ) = (N : ℚ) := by
    exact_mod_cast hdm
  have hmq : ((N % 65535 : ℕ) : ℚ) < 65535 := by
    exact_mod_cast Nat.mod_lt N (show 0 < 65535 by norm_num)
  have hmq0 : (0 : ℚ) ≤ ((N % 65535 : ℕ) : ℚ) := by positivity
  have hcast : (((N / 65535 : ℕ) : ℤ) : ℚ) = ((N / 65535 : ℕ) : ℚ) := by norm_cast
  rw [Int.floor_eq_iff, hcast]
  constructor
  · rw [le_div_iff (by norm_num : (0:ℚ) < 65535)]
    linarith
  · rw [div_lt_iff (by norm_num : (0:ℚ) < 65535)]
    linarith

theorem roundHalfEven_div65535 (N : Nat) :
    roundHalfEven ((N : ℚ) / 65535) =
      if 2 * (N % 65535) < 65535 then ((N / 65535 : ℕ) : ℤ) else ((N / 65535 : ℕ) : ℤ) + 1 := by
  have hdm := Nat.div_add_mod N 65535
  have hdmq : 65535 * ((N / 65535 : ℕ) : ℚ) + ((N % 65535 : ℕ) : ℚ) = (N : ℚ) := by
    exact_mod_cast hdm
  have hmq : ((N % 65535 : ℕ) : ℚ) < 65535 := by
    exact_mod_cast Nat.mod_lt N (show 0 < 65535 by norm_num)
  have hmq0 : (0 : ℚ) ≤ ((N % 65535 : ℕ) : ℚ) := by positivity
  have hcast : (((N / 65535 : ℕ) : ℤ) : ℚ) = ((N / 65535 : ℕ) : ℚ) := by norm_cast
  have hfrac : (N : ℚ) / 65535 - (((N / 65535 : ℕ) : ℤ) : ℚ)
      = ((N % 65535 : ℕ) : ℚ) / 65535 := by
    rw [hcast]
    field_simp
    linarith
  unfold roundHalfEven
  rw [floor_natCast_div65535, hfrac]
  by_cases hsm : 2 * (N % 65535) < 65535
  · have hsmq : 2 * ((N % 65535 : ℕ) : ℚ) < 65535 := by exact_mod_cast hsm
    rw [if_pos ?hlt, if_pos hsm]
    case hlt =>
      rw [div_lt_iff (by norm_num : (0:ℚ) < 65535)]
      linarith
  · have hgt : 65535 < 2 * (N % 65535) := by omega
    have hgtq : (65535 : ℚ) < 2 * ((N % 65535 : ℕ) : ℚ) := by exact_mod_cast hgt
    rw [if_neg ?hnlt, if_pos ?hgt2, if_neg hsm]
    case hnlt =>
      rw [not_lt, le_div_iff (by norm_num : (0:ℚ) < 65535)]
      linarith
    case hgt2 =>
      rw [lt_div_iff (by norm_num : (0:ℚ) < 65535)]
      linarith

theorem int_mul_zpow_le_iff (A B : ℤ) (k : ℤ) :
    (A : ℚ) * 2 ^ k ≤ (B : ℚ) * 2 ^ k ↔ A ≤ B := by
  have hk : (0 : ℚ) < 2 ^ k := by positivity
  rw [mul_le_mul_right hk, Int.cast_le]

theorem int_mul_zpow_lt_iff (A B : ℤ) (k : ℤ) :
    (A : ℚ) * 2 ^ k < (B : ℚ) * 2 ^ k ↔ A < B := by
  have hk : (0 : ℚ) < 2 ^ k := by positivity
  rw [mul_lt_mul_right hk, Int.cast_lt]

theorem int_pow_mul_zpow (n : ℕ) (k : ℤ) :
    (((2 : ℤ) ^ n : ℤ) : ℚ) * 2 ^ k = (2 : ℚ) ^ ((n : ℤ) + k) := by
  push_cast
  rw [← zpow_natCast (2 : ℚ) n, ← zpow_add₀ (by norm_num : (2:ℚ) ≠ 0)]

theorem RN_div_mul_65535 (x : ℕ) (hx : x ≤ 65535) :
    RN (RN ((x : ℚ) / 65535) * 65535) = (x : ℚ) := by
  rcases Nat.eq_zero_or_pos x with hx0 | hxp
  · subst hx0
    norm_num [RN_zero]
  rcases eq_or_lt_of_le hx with hxc | hxlt
  · subst hxc
    have h1 : ((65535 : ℕ) : ℚ) / 65535 = 1 := by norm_num
    rw [h1, RN_one, one_mul]
    have := RN_natCast 65535 (by norm_num)
    push_cast at this ⊢
    rw [this]
  -- main case: 1 ≤ x ≤ 65534
  obtain ⟨j, hj1, hj2⟩ : ∃ j : ℕ, 2 ^ j ≤ x ∧ x < 2 ^ (j + 1) :=
    ⟨x.log2, Nat.log2_self_le (by omega), Nat.lt_log2_self⟩
  have hj15 : j ≤ 15 := by
    by_contra hc
    have : 2 ^ 16 ≤ 2 ^ j := Nat.pow_le_pow_right (by norm_num) (by omega)
    omega
  have h2Q : (2 : ℚ) ≠ 0 := by norm_num
  set N : ℕ := x * 2 ^ (39 - j) with hN
  set K : ℕ := N / 65535 with hK
  set R : ℕ := N % 65535 with hR
  have hdm : 65535 * K + R = N := Nat.div_add_mod N 65535
  have hRlt : R < 65535 := Nat.mod_lt N (by norm_num)
  have hD24 : 2 ^ 24 ≤ 2 ^ (39 - j) := Nat.pow_le_pow_right (by norm_num) (by omega)
  have hAD : 2 ^ j * 2 ^ (39 - j) = 2 ^ 39 := by
    rw [← pow_add]
    congr 1
    omega
  have hNbase : 2 ^ 39 ≤ N := by
    calc (2:ℕ) ^ 39 = 2 ^ j * 2 ^ (39 - j) := hAD.symm
    _ ≤ x * 2 ^ (39 - j) := Nat.mul_le_mul_right _ hj1
  have hNhigh : N ≤ 2 ^ 40 - 2 ^ (39 - j) := by
    have h4 : N ≤ (2 ^ (j + 1) - 1) * 2 ^ (39 - j) := Nat.mul_le_mul_right _ (by omega)
    have h5 : (2 ^ (j + 1) - 1) * 2 ^ (39 - j) = 2 ^ 40 - 2 ^ (39 - j) := by
      rw [Nat.sub_mul, one_mul, ← pow_add]
      congr 2
      omega
    omega
  -- step A: the binade of x / 65535
  have hbinA1 : (2 : ℚ) ^ ((j : ℤ) - 16) ≤ (x : ℚ) / 65535 := by
    rw [le_div_iff (by norm_num : (0:ℚ) < 65535), zpow_sub₀ h2Q,
        div_mul_eq_mul_div, div_le_iff (by norm_num : (0:ℚ) < (2:ℚ) ^ (16:ℤ))]
    have hxq : ((2 ^ j : ℕ) : ℚ) ≤ (x : ℚ) := by exact_mod_cast hj1
    push_cast at hxq
    rw [show ((2:ℚ) ^ (j:ℤ)) = (2:ℚ) ^ (j:ℕ) from zpow_natCast 2 j,
        show ((2:ℚ) ^ (16:ℤ)) = (2:ℚ) ^ (16:ℕ) from zpow_natCast 2 16]
    have h216 : (0:ℚ) < 2 ^ (16:ℕ) := by positivity
    nlinarith [hxq]
  have hbinA2 : (x : ℚ) / 65535 < (2 : ℚ) ^ (((j : ℤ) - 16) + 1) := by
    have hnat : x * 2 ^ 15 < 65535 * 2 ^ j := by
      rcases Nat.lt_or_ge j 15 with hj14 | hj15e
      · have hP : (2:ℕ) ^ j ≤ 2 ^ 14 := Nat.pow_le_pow_right (by norm_num) (by omega)
        have hPs : (2:ℕ) ^ (j + 1) = 2 * 2 ^ j := by rw [pow_succ]; ring
        omega
      · have hj15f : j = 15 := by omega
        subst hj15f
        have hxl : x < 65535 := by omega
        exact mul_lt_mul_of_pos_right hxl (by norm_num)
    rw [show ((j : ℤ) - 16) + 1 = (j : ℤ) - 15 by ring, div_lt_iff (by norm_num : (0:ℚ) < 65535),
        zpow_sub₀ h2Q, div_mul_eq_mul_div, lt_div_iff (by norm_num : (0:ℚ) < (2:ℚ) ^ (15:ℤ))]
    have hq : ((x * 2 ^ 15 : ℕ) : ℚ) < ((65535 * 2 ^ j : ℕ) : ℚ) := by exact_mod_cast hnat
    push_cast at hq
    rw [show ((2:ℚ) ^ (j:ℤ)) = (2:ℚ) ^ (j:ℕ) from zpow_natCast 2 j,
        show ((2:ℚ) ^ (15:ℤ)) = (2:ℚ) ^ (15:ℕ) from zpow_natCast 2 15]
    nlinarith [hq]
  have hxQpos : (0 : ℚ) < (x : ℚ) / 65535 := by positivity
  have hargA : (x : ℚ) / 65535 * 2 ^ ((23 : ℤ) - ((j : ℤ) - 16)) = (N : ℚ) / 65535 := by
    rw [show (23 : ℤ) - ((j : ℤ) - 16) = ((39 - j : ℕ) : ℤ) by omega, zpow_natCast]
    rw [hN]
    push_cast
    ring
  have hstepA : RN ((x : ℚ) / 65535)
      = ((roundHalfEven ((N : ℚ) / 65535) : ℤ) : ℚ) * 2 ^ (((j : ℤ) - 16) - 23) := by
    rw [RN_eq_of_binade _ ((j : ℤ) - 16) hxQpos hbinA1 hbinA2, hargA]
  set m : ℤ := roundHalfEven ((N : ℚ) / 65535) with hm
  set ρ : ℤ := (N : ℤ) - m * 65535 with hρ
  have hmval : m = if 2 * R < 65535 then ((K : ℕ) : ℤ) else ((K : ℕ) : ℤ) + 1 :=
    roundHalfEven_div65535 N
  have hρrange : -32767 ≤ ρ ∧ ρ ≤ 32767 := by
    rcases lt_or_ge (2 * R) 65535 with hsm | hbg
    · rw [if_pos hsm] at hmval
      constructor <;> omega
    · rw [if_neg (by omega)] at hmval
      constructor <;> omega
  have hpform : RN ((x : ℚ) / 65535) * 65535 = ((m * 65535 : ℤ) : ℚ) * 2 ^ ((j : ℤ) - 39) := by
    rw [hstepA, show ((j : ℤ) - 16) - 23 = (j : ℤ) - 39 by ring]
    push_cast
    ring
  rw [hpform]
  have hscaled : m * 65535 = (N : ℤ) - ρ := by omega
  by_cases hspecial : x = 2 ^ j ∧ 0 < ρ
  · -- x sits at the bottom of its binade and the rounded value is below x
    obtain ⟨hxe, hρpos⟩ := hspecial
    have hN39 : N = 2 ^ 39 := by
      rw [hN, hxe, hAD]
    have hK39 : K = 8388736 := by
      rw [hK, hN39]
      decide
    have hmK : m = ((K : ℕ) : ℤ) := by
      rw [hmval, hR, hN39, if_pos (by decide)]
    have hm655 : m * 65535 = 2 ^ 39 - 128 := by
      rw [hmK, hK39]
      decide
    rw [hm655]
    have hlow : (2 : ℚ) ^ ((j : ℤ) - 1) ≤ ((2 ^ 39 - 128 : ℤ) : ℚ) * 2 ^ ((j : ℤ) - 39) := by
      calc (2 : ℚ) ^ ((j : ℤ) - 1) = (((2 : ℤ) ^ 38 : ℤ) : ℚ) * 2 ^ ((j : ℤ) - 39) := by
            rw [int_pow_mul_zpow]
            congr 1
            omega
      _ ≤ _ := (int_mul_zpow_le_iff _ _ _).mpr (by norm_num)
    have hhigh : ((2 ^ 39 - 128 : ℤ) : ℚ) * 2 ^ ((j : ℤ) - 39)
        < (2 : ℚ) ^ (((j : ℤ) - 1) + 1) := by
      calc ((2 ^ 39 - 128 : ℤ) : ℚ) * 2 ^ ((j : ℤ) - 39)
          < (((2 : ℤ) ^ 39 : ℤ) : ℚ) * 2 ^ ((j : ℤ) - 39) :=
            (int_mul_zpow_lt_iff _ _ _).mpr (by norm_num)
      _ = (2 : ℚ) ^ (((j : ℤ) - 1) + 1) := by
            rw [int_pow_mul_zpow]
            congr 1
            omega
    have hvpos : (0 : ℚ) < ((2 ^ 39 - 128 : ℤ) : ℚ) * 2 ^ ((j : ℤ) - 39) := by
      have h0 : ((0 : ℤ) : ℚ) * 2 ^ ((j : ℤ) - 39)
          < ((2 ^ 39 - 128 : ℤ) : ℚ) * 2 ^ ((j : ℤ) - 39) :=
        (int_mul_zpow_lt_iff _ _ _).mpr (by norm_num)
      simpa using h0
    rw [RN_eq_of_binade _ ((j : ℤ) - 1) hvpos hlow hhigh]
    have harg : ((2 ^ 39 - 128 : ℤ) : ℚ) * 2 ^ ((j : ℤ) - 39) * 2 ^ ((23 : ℤ) - ((j : ℤ) - 1))
        = ((2 ^ 24 : ℤ) : ℚ) + (-(1 / 256) : ℚ) := by
      rw [mul_assoc, ← zpow_add₀ h2Q, show ((j : ℤ) - 39) + ((23 : ℤ) - ((j : ℤ) - 1))
          = -(15 : ℤ) by ring]
      rw [show ((2:ℚ) ^ (-(15:ℤ))) = ((2:ℚ) ^ (15:ℤ))⁻¹ from zpow_neg 2 15,
          show ((2:ℚ) ^ (15:ℤ)) = (32768 : ℚ) by norm_num]
      push_cast
      norm_num
    rw [harg, roundHalfEven_add_small (2 ^ 24) (-(1 / 256)) (by norm_num) (by norm_num)]
    have hfin : (((2 : ℤ) ^ 24 : ℤ) : ℚ) * 2 ^ (((j : ℤ) - 1) - 23) = (2 : ℚ) ^ (j : ℤ) := by
      rw [int_pow_mul_zpow]
      congr 1
      omega
    rw [hfin, hxe]
    push_cast
    rw [zpow_natCast]
  · -- the general case: the rounded value stays in the binade of x
    have hgen : ρ ≤ 0 ∨ 2 ^ j + 1 ≤ x := by
      by_cases hxe : x = 2 ^ j
      · left
        by_contra hc
        exact hspecial ⟨hxe, by omega⟩
      · right
        omega
    have hNlow2 : (2 : ℤ) ^ 39 ≤ m * 65535 := by
      rw [hscaled]
      rcases hgen with hρn | hxg
      · have hc : ((2 ^ 39 : ℕ) : ℤ) ≤ (N : ℤ) := by exact_mod_cast hNbase
        push_cast at hc
        omega
      · have hNg : 2 ^ 39 + 2 ^ 24 ≤ N := by
          have h1 : (2 ^ j + 1) * 2 ^ (39 - j) ≤ N := Nat.mul_le_mul_right _ (by omega)
          have h2 : (2 ^ j + 1) * 2 ^ (39 - j) = 2 ^ 39 + 2 ^ (39 - j) := by
            rw [add_mul, one_mul, hAD]
          omega
        have hc : ((2 ^ 39 + 2 ^ 24 : ℕ) : ℤ) ≤ (N : ℤ) := by exact_mod_cast hNg
        push_cast at hc
        omega
    have hNhigh2 : m * 65535 < (2 : ℤ) ^ 40 := by
      rw [hscaled]
      have h6 : N ≤ 2 ^ 40 - 2 ^ 24 := by omega
      have hc : (N : ℤ) ≤ ((2 ^ 40 - 2 ^ 24 : ℕ) : ℤ) := by exact_mod_cast h6
      push_cast at hc
      omega
    have hlow : (2 : ℚ) ^ (j : ℤ) ≤ ((m * 65535 : ℤ) : ℚ) * 2 ^ ((j : ℤ) - 39) := by
      calc (2 : ℚ) ^ (j : ℤ) = (((2 : ℤ) ^ 39 : ℤ) : ℚ) * 2 ^ ((j : ℤ) - 39) := by
            rw [int_pow_mul_zpow]
            congr 1
            omega
      _ ≤ _ := (int_mul_zpow_le_iff _ _ _).mpr hNlow2
    have hhigh : ((m * 65535 : ℤ) : ℚ) * 2 ^ ((j : ℤ) - 39) < (2 : ℚ) ^ ((j : ℤ) + 1) := by
      calc ((m * 65535 : ℤ) : ℚ) * 2 ^ ((j : ℤ) - 39)
          < (((2 : ℤ) ^ 40 : ℤ) : ℚ) * 2 ^ ((j : ℤ) - 39) :=
            (int_mul_zpow_lt_iff _ _ _).mpr hNhigh2
      _ = (2 : ℚ) ^ ((j : ℤ) + 1) := by
            rw [int_pow_mul_zpow]
            congr 1
            omega
    have hvpos : (0 : ℚ) < ((m * 65535 : ℤ) : ℚ) * 2 ^ ((j : ℤ) - 39) := by
      have h0 : ((0 : ℤ) : ℚ) * 2 ^ ((j : ℤ) - 39)
          < ((m * 65535 : ℤ) : ℚ) * 2 ^ ((j : ℤ) - 39) := by
        apply (int_mul_zpow_lt_iff _ _ _).mpr
        have : (0 : ℤ) < 2 ^ 39 := by norm_num
        omega
      simpa using h0
    rw [RN_eq_of_binade _ (j : ℤ) hvpos hlow hhigh]
    set X : ℕ := x * 2 ^ (23 - j) with hX
    have hXN : X * 65536 = N := by
      rw [hX, hN, mul_assoc]
      congr 1
      rw [show (65536 : ℕ) = 2 ^ 16 by norm_num, ← pow_add]
      congr 1
      omega
    have harg : ((m * 65535 : ℤ) : ℚ) * 2 ^ ((j : ℤ) - 39) * 2 ^ ((23 : ℤ) - (j : ℤ))
        = ((X : ℤ) : ℚ) + (-((ρ : ℚ) / 65536)) := by
      rw [mul_assoc, ← zpow_add₀ h2Q,
          show ((j : ℤ) - 39) + ((23 : ℤ) - (j : ℤ)) = -(16 : ℤ) by ring,
          show ((2:ℚ) ^ (-(16:ℤ))) = ((2:ℚ) ^ (16:ℤ))⁻¹ from zpow_neg 2 16,
          show ((2:ℚ) ^ (16:ℤ)) = (65536 : ℚ) by norm_num]
      have hXNq : ((X : ℚ)) * 65536 = (N : ℚ) := by exact_mod_cast hXN
      have hscq : ((m * 65535 : ℤ) : ℚ) = (N : ℚ) - (ρ : ℚ) := by
        push_cast [hρ]
        ring
      have hXc : (((X : ℕ) : ℤ) : ℚ) = ((X : ℕ) : ℚ) := by norm_cast
      rw [hscq, hXc]
      field_simp
      linarith [hXNq]
    have hb1 : -(1 / 2 : ℚ) < -((ρ : ℚ) / 65536) := by
      have h2c : (ρ : ℚ) < 32768 := by exact_mod_cast (show ρ < 32768 by omega)
      have hd : (ρ : ℚ) / 65536 < 1 / 2 := by
        rw [div_lt_iff (by norm_num : (0:ℚ) < 65536)]
        linarith
      linarith
    have hb2 : -((ρ : ℚ) / 65536) < 1 / 2 := by
      have h2c : (-32768 : ℚ) < (ρ : ℚ) := by exact_mod_cast (show (-32768 : ℤ) < ρ by omega)
      have hd : -(1 / 2 : ℚ) < (ρ : ℚ) / 65536 := by
        rw [lt_div_iff (by norm_num : (0:ℚ) < 65536)]
        linarith
      linarith
    rw [harg, roundHalfEven_add_small X (-((ρ : ℚ) / 65536)) hb1 hb2]
    have hXc2 : (((X : ℕ) : ℤ) : ℚ) = ((X : ℕ) : ℚ) := by norm_cast
    rw [hXc2, hX]
    push_cast
    rw [mul_assoc, ← zpow_natCast (2:ℚ) (23 - j), ← zpow_add₀ h2Q,
        show ((23 - j : ℕ) : ℤ) + ((j : ℤ) - 23) = 0 by omega, zpow_zero, mul_one]


theorem castU16_natCast (n : ℕ) : castU16 ((n : ℕ) : ℚ) = n := by
  unfold castU16
  rw [Int.floor_natCast]
  exact Int.toNat_natCast n

theorem blendChanOut_normal (c : ℕ) (dq A : ℚ) (hc : c ≤ 65535) :
    blendChanOut (RN ((c : ℚ) / 65535)) dq 1 A 1 = c := by
  unfold blendChanOut
  rw [mul_one, sub_self, RN_zero, mul_zero, RN_zero, add_zero,
      RN_idem_of_nonneg ((c : ℚ) / 65535) (by positivity), div_one,
      RN_idem_of_nonneg ((c : ℚ) / 65535) (by positivity),
      RN_idem_of_nonneg ((c : ℚ) / 65535) (by positivity),
      RN_div_mul_65535 c hc, castU16_natCast]

/-- Claim C6: blendPixels with mode Normal, opacity 1 and a fully opaque
source (alpha 65535) replaces the destination with the source exactly, in all
four channels and for every channel value in [0, 65535]: the binary32
normalize and denormalize round trip through division and multiplication by
65535, followed by the truncating cast, is exact (theorem RN_div_mul_65535). -/
theorem claim_C6 (dest src : Pixel) (ha : src.a = 65535)
    (hr : src.r ≤ 65535) (hg : src.g ≤ 65535) (hb : src.b ≤ 65535) :
    blendPixels dest src BlendMode.Normal 1 = src := by
  obtain ⟨r, g, b, a⟩ := src
  dsimp only at ha hr hg hb
  subst ha
  unfold blendPixels
  dsimp only
  have hsa : RN (RN (((65535 : ℕ) : ℚ) / 65535) * 1) = 1 := by
    rw [mul_one, RN_idem_of_nonneg _ (by positivity)]
    norm_num [RN_one]
  rw [hsa, if_neg (by norm_num : ¬ (1:ℚ) ≤ 0)]
  rw [sub_self, RN_zero, mul_zero, RN_zero, add_zero, RN_one]
  rw [if_pos (by norm_num : (0:ℚ) < 1)]
  have hmode : ∀ d s : ℚ, blendF BlendMode.Normal d s = s := fun d s => rfl
  rw [hmode, hmode, hmode]
  rw [blendChanOut_normal r _ _ hr, blendChanOut_normal g _ _ hg,
      blendChanOut_normal b _ _ hb]
  have hal : castU16 (RN ((1 : ℚ) * 65535)) = 65535 := by
    rw [one_mul]
    have h := RN_natCast 65535 (by norm_num)
    push_cast at h
    rw [h]
    unfold castU16
    norm_num
    decide
  rw [hal]

/-- Witness for claim C6: the hypotheses discharged at a concrete opaque
source over an arbitrary concrete destination. -/
theorem claim_C6_witness :
    (Pixel.mk 40000 1 65534 65535).a = 65535 ∧
    blendPixels ⟨123, 45678, 9, 10⟩ ⟨40000, 1, 65534, 65535⟩ BlendMode.Normal 1
      = ⟨40000, 1, 65534, 65535⟩ :=
  ⟨rfl, claim_C6 ⟨123, 45678, 9, 10⟩ ⟨40000, 1, 65534, 65535⟩ rfl (by norm_num)
    (by norm_num) (by norm_num)⟩


theorem mixChan_one (d c : ℕ) (hc : c ≤ 2 ^ 24) : mixChan d c 1 = c := by
  unfold mixChan
  rw [sub_self, RN_zero, mul_zero, RN_zero, mul_one, RN_natCast c hc, zero_add,
      RN_natCast c hc, castU16_natCast]

/-- Counterexample for claim C3: on a fresh 1 x 1 canvas, beginStroke followed
by a brush stamp (size 2, opacity 1, white) paints the single pixel white;
undo restores opaque black, and the subsequent redo is a no-op, so undo then
redo leaves the pixel at its PRE-stroke value opaque black, not at the
post-stroke value white claimed by undo-redo symmetry. -/
theorem claim_C3_counterexample :
    ((((CanvasCore.make 1 1).beginStroke).drawBrushStroke 0 [(0, 0)] 2 1
          ⟨65535, 65535, 65535, 65535⟩).layers.getD 0
        (Layer.new "" 0 0)).pixels.getPixelRead 0 0 = ⟨65535, 65535, 65535, 65535⟩ ∧
    ((((((CanvasCore.make 1 1).beginStroke).drawBrushStroke 0 [(0, 0)] 2 1
          ⟨65535, 65535, 65535, 65535⟩).undo).redo).layers.getD 0
        (Layer.new "" 0 0)).pixels.getPixelRead 0 0 = Pixel.mk0 ∧
    ((⟨65535, 65535, 65535, 65535⟩ : Pixel) ≠ Pixel.mk0) := by
  have hrad : truncQ (RN ((2 : ℚ) / 2)) = 1 := by
    rw [show ((2:ℚ) / 2) = 1 by norm_num, RN_one]
    decide
  have hα : RN (RN (1 - RN (RN (sqrtD ((0 * 0 + 0 * 0 : ℤ)).toNat) / ((1 : ℤ) : ℚ))) * 1)
      = 1 := by
    rw [show sqrtD ((0 * 0 + 0 * 0 : ℤ)).toNat = 0 from rfl, RN_zero, zero_div, RN_zero,
        sub_zero, RN_one, mul_one, RN_one]
  have hbp : brushAtPoint (TileGrid.make 1 1) 1 1 0 0 1 1 ⟨65535, 65535, 65535, 65535⟩
      = (TileGrid.make 1 1).setPixel 0 0
        ⟨mixChan 0 65535
            (RN (RN (1 - RN (RN (sqrtD ((0 * 0 + 0 * 0 : ℤ)).toNat) / ((1 : ℤ) : ℚ))) * 1)),
         mixChan 0 65535
            (RN (RN (1 - RN (RN (sqrtD ((0 * 0 + 0 * 0 : ℤ)).toNat) / ((1 : ℤ) : ℚ))) * 1)),
         mixChan 0 65535
            (RN (RN (1 - RN (RN (sqrtD ((0 * 0 + 0 * 0 : ℤ)).toNat) / ((1 : ℤ) : ℚ))) * 1)),
         mixChan 65535 65535
            (RN (RN (1 - RN (RN (sqrtD ((0 * 0 + 0 * 0 : ℤ)).toNat) / ((1 : ℤ) : ℚ))) * 1))⟩ :=
    rfl
  rw [hα, mixChan_one 0 65535 (by norm_num), mixChan_one 65535 65535 (by norm_num)] at hbp
  have hc2 : ((CanvasCore.make 1 1).beginStroke).drawBrushStroke 0 [(0, 0)] 2 1
      ⟨65535, 65535, 65535, 65535⟩
      = { (CanvasCore.make 1 1).beginStroke with
          layers := ((CanvasCore.make 1 1).beginStroke).layers.set (Int.toNat 0)
            ((((CanvasCore.make 1 1).beginStroke).layers.getD (Int.toNat 0)
                (Layer.new "" 0 0)).setPixels
              ((TileGrid.make 1 1).setPixel 0 0 ⟨65535, 65535, 65535, 65535⟩)) } := by
    have hgen : ∀ (sz op : ℚ) (col : Pixel),
        ((CanvasCore.make 1 1).beginStroke).drawBrushStroke 0 [(0, 0)] sz op col
        = { (CanvasCore.make 1 1).beginStroke with
            layers := ((CanvasCore.make 1 1).beginStroke).layers.set (Int.toNat 0)
              ((((CanvasCore.make 1 1).beginStroke).layers.getD (Int.toNat 0)
                  (Layer.new "" 0 0)).setPixels
                (brushAtPoint (TileGrid.make 1 1) 1 1 0 0 (truncQ (RN (sz / 2))) op
                  col)) } :=
      fun sz op col => rfl
    refine (hgen 2 1 ⟨65535, 65535, 65535, 65535⟩).trans ?_
    rw [hrad, hbp]
  refine ⟨?_, ?_, by decide⟩
  · rw [hc2]
    decide
  · rw [hc2]
    decide

end AIPaint
